import Mathlib

set_option autoImplicit false

/-!
Shallow embedding of `src/rename_invoices.py` (invoice-renamer).

Strings are modelled as `List Char`.  The Python regular expressions used by
the source are embedded as bespoke backtracking matchers that follow the
semantics of `re.search` / `re.finditer` / `re.sub` for those concrete
patterns: leftmost starting position, greedy quantifiers tried longest first
with backtracking into the continuation, `\b` as the word-boundary test.
Character classes use ASCII semantics; characters outside ASCII are treated
as word characters for `\b` (exact for the accented letters appearing in the
source's tables).  External collaborators (PDF rendering, OCR, `dateutil`,
`unidecode`) are modelled where noted in doc comments.
-/

namespace InvoiceRenamer

/-! ### Character classes -/

def isDig (c : Char) : Bool := 48 ≤ c.toNat && c.toNat ≤ 57

def digVal (c : Char) : Nat := c.toNat - 48

def isAsciiLower (c : Char) : Bool := 97 ≤ c.toNat && c.toNat ≤ 122

def isAsciiUpper (c : Char) : Bool := 65 ≤ c.toNat && c.toNat ≤ 90

def isAsciiAlpha (c : Char) : Bool := isAsciiLower c || isAsciiUpper c

def isAsciiAlnum (c : Char) : Bool := isAsciiAlpha c || isDig c

/-- Python re `\s` for `str` patterns. -/
def pyIsSpace (c : Char) : Bool :=
  c.toNat = 32 || c.toNat = 9 || c.toNat = 10 || c.toNat = 0x0b || c.toNat = 0x0c ||
  c.toNat = 13 || (0x1c ≤ c.toNat && c.toNat ≤ 0x1f) || c.toNat = 0x85 ||
  c.toNat = 0xa0 || c.toNat = 0x1680 || (0x2000 ≤ c.toNat && c.toNat ≤ 0x200a) ||
  c.toNat = 0x2028 || c.toNat = 0x2029 || c.toNat = 0x202f || c.toNat = 0x205f ||
  c.toNat = 0x3000

/-- Python re `\w` for `str`: ASCII letters, digits and underscore; non-ASCII
characters are conservatively treated as word characters (exact for the Czech
letters in the source). -/
def isWordChar (c : Char) : Bool := isAsciiAlnum c || c.toNat = 95 || 128 ≤ c.toNat

/-- Left context of a `\b` at a match start whose first pattern character is a
word character: the previous character must not be a word character. -/
def noWordBefore (prev : Option Char) : Bool :=
  match prev with
  | none => true
  | some c => !isWordChar c

/-- A `\b` placed after a word character: the rest of the input must start
with a non-word character (or be empty). -/
def boundaryAfterWord (rest : List Char) : Bool :=
  match rest with
  | [] => true
  | c :: _ => !isWordChar c

/-- General `\b` test between two optional context characters. -/
def isBoundary (a b : Option Char) : Bool :=
  (match a with | none => false | some c => isWordChar c) !=
  (match b with | none => false | some c => isWordChar c)

/-! ### Small combinators -/

def firstSome {α β : Type} : List α → (α → Option β) → Option β
  | [], _ => none
  | x :: rest, f =>
    match f x with
    | some b => some b
    | none => firstSome rest f

/-- Take exactly `n` digits. -/
def takeDigs : Nat → List Char → Option (List Char × List Char)
  | 0, cs => some ([], cs)
  | _ + 1, [] => none
  | n + 1, c :: cs =>
    if isDig c then
      match takeDigs n cs with
      | some (ds, rest) => some (c :: ds, rest)
      | none => none
    else none

/-- ASCII lowercase together with the uppercase Czech letters used by the
source's tables, for IGNORECASE literal matching. -/
def lowChar (c : Char) : Char :=
  if isAsciiUpper c then Char.ofNat (c.toNat + 32)
  else match c with
    | 'Á' => 'á' | 'É' => 'é' | 'Í' => 'í' | 'Ó' => 'ó' | 'Ú' => 'ú'
    | 'Ý' => 'ý' | 'Č' => 'č' | 'Ď' => 'ď' | 'Ě' => 'ě' | 'Ň' => 'ň'
    | 'Ř' => 'ř' | 'Š' => 'š' | 'Ť' => 'ť' | 'Ů' => 'ů' | 'Ž' => 'ž'
    | _ => c

/-- Case-insensitive literal: consume the characters of `lit` from `cs`. -/
def takeLitI : List Char → List Char → Option (List Char)
  | [], cs => some cs
  | _ :: _, [] => none
  | l :: ls, c :: cs => if lowChar c = lowChar l then takeLitI ls cs else none

/-! ### Date regexes (DATE_REGEXES, source lines 22-26) -/

def sepClass (c : Char) : Bool := c.toNat = 46 || c.toNat = 45 || c.toNat = 47

def Groups3 : Type := List Char × List Char × List Char

/-- Backtracking match, at the current position, of the first date regex
`\b(\d{1,2}) sep (\d{1,2}) sep (\d{2,4})\b`, where `sep` is the character
class of dot, dash and slash (the leading boundary is checked by the
caller).  Returns the three captured groups and the input remaining after
the match. -/
def matchNumA (cs : List Char) : Option (Groups3 × List Char) :=
  firstSome [2, 1] fun n1 =>
    match takeDigs n1 cs with
    | none => none
    | some (g1, r1) =>
      match r1 with
      | [] => none
      | s1 :: r2 =>
        if sepClass s1 then
          firstSome [2, 1] fun n2 =>
            match takeDigs n2 r2 with
            | none => none
            | some (g2, r3) =>
              match r3 with
              | [] => none
              | s2 :: r4 =>
                if sepClass s2 then
                  firstSome [4, 3, 2] fun n3 =>
                    match takeDigs n3 r4 with
                    | none => none
                    | some (g3, r5) =>
                      if boundaryAfterWord r5 then some ((g1, g2, g3), r5) else none
                else none
        else none

/-- Backtracking match, at the current position, of the second date regex
`\b(\d{4}) sep (\d{1,2}) sep (\d{1,2})\b`, where `sep` is the character
class of dot, dash and slash. -/
def matchNumB (cs : List Char) : Option (Groups3 × List Char) :=
  match takeDigs 4 cs with
  | none => none
  | some (g1, r1) =>
    match r1 with
    | [] => none
    | s1 :: r2 =>
      if sepClass s1 then
        firstSome [2, 1] fun n2 =>
          match takeDigs n2 r2 with
          | none => none
          | some (g2, r3) =>
            match r3 with
            | [] => none
            | s2 :: r4 =>
              if sepClass s2 then
                firstSome [2, 1] fun n3 =>
                  match takeDigs n3 r4 with
                  | none => none
                  | some (g3, r5) =>
                    if boundaryAfterWord r5 then some ((g1, g2, g3), r5) else none
              else none
      else none

/-- Backtracking match, at the current position, of
`\b(\d{1,2})\s*\.\s*(\d{1,2})\s*\.\s*(\d{2,4})\b`. -/
def matchNumC (cs : List Char) : Option (Groups3 × List Char) :=
  firstSome [2, 1] fun n1 =>
    match takeDigs n1 cs with
    | none => none
    | some (g1, r1) =>
      match r1.dropWhile pyIsSpace with
      | c1 :: r2 =>
        if c1 = '.' then
          firstSome [2, 1] fun n2 =>
            match takeDigs n2 (r2.dropWhile pyIsSpace) with
            | none => none
            | some (g2, r3) =>
              match r3.dropWhile pyIsSpace with
              | c2 :: r4 =>
                if c2 = '.' then
                  firstSome [4, 3, 2] fun n3 =>
                    match takeDigs n3 (r4.dropWhile pyIsSpace) with
                    | none => none
                    | some (g3, r5) =>
                      if boundaryAfterWord r5 then some ((g1, g2, g3), r5) else none
                else none
              | [] => none
        else none
      | [] => none

/-- `re.search` for a matcher whose pattern begins with `\b` followed by a
word character: try the matcher at each position from the left, tracking the
previous character for the boundary test. -/
def scanB {β : Type} (m : List Char → Option β) :
    Option Char → List Char → Option β
  | prev, [] =>
    (match (if noWordBefore prev then m [] else none) with
     | some g => some g
     | none => none)
  | prev, c :: rest =>
    (match (if noWordBefore prev then m (c :: rest) else none) with
     | some g => some g
     | none => scanB m (some c) rest)

/-- `re.search` for a pattern without a leading `\b`: try the matcher at
every position from the left. -/
def scanPlain {β : Type} (m : List Char → Option β) : List Char → Option β
  | [] => m []
  | c :: rest =>
    match m (c :: rest) with
    | some g => some g
    | none => scanPlain m rest

def scanFrom (m : List Char → Option (Groups3 × List Char)) (prev : Option Char)
    (cs : List Char) : Option Groups3 :=
  match scanB m prev cs with
  | some (g, _) => some g
  | none => none

/-! ### Calendar validation and rendering -/

def toNatDigits (ds : List Char) : Nat := ds.foldl (fun a c => 10 * a + digVal c) 0

def isLeap (y : Nat) : Bool := (y % 4 == 0 && y % 100 != 0) || y % 400 == 0

def daysInMonth (y m : Nat) : Nat :=
  if m = 2 then (if isLeap y then 29 else 28)
  else if m = 4 ∨ m = 6 ∨ m = 9 ∨ m = 11 then 30
  else 31

/-- Validity of `datetime(y, m, d)` in Python (MINYEAR = 1, MAXYEAR = 9999). -/
def validDate (y m d : Nat) : Bool :=
  1 ≤ y && y ≤ 9999 && 1 ≤ m && m ≤ 12 && 1 ≤ d && d ≤ daysInMonth y m

def pad2 (n : Nat) : String := if n < 10 then "0" ++ toString n else toString n

def pad4 (n : Nat) : String :=
  if n < 10 then "000" ++ toString n
  else if n < 100 then "00" ++ toString n
  else if n < 1000 then "0" ++ toString n
  else toString n

/-- `datetime(y,m,d).strftime("%Y-%m-%d")`, year zero-padded to four digits
(CPython pads `%Y` below year 1000 only on some platforms; every date in the
claims has a four-digit year). -/
def fmtDate (y m d : Nat) : String := pad4 y ++ "-" ++ pad2 m ++ "-" ++ pad2 d

/-- The `try: return datetime(y,mn,d).strftime(...) except: pass` block:
a rendered date when the triple is valid, absence otherwise. -/
def dateYMD (y m d : Nat) : Option String :=
  if validDate y m d then some (fmtDate y m d) else none

/-- Width heuristic and calendar validation applied to three captured groups
(source lines 44-57); `none` when `datetime` would raise, in which case the
source falls through to the next pattern. -/
def dateFromGroups (g : Groups3) : Option String :=
  if g.1.length = 4 then
    dateYMD (toNatDigits g.1) (toNatDigits g.2.1) (toNatDigits g.2.2)
  else if g.2.2.length = 4 then
    dateYMD (toNatDigits g.2.2) (toNatDigits g.2.1) (toNatDigits g.1)
  else
    dateYMD (if toNatDigits g.2.2 < 100 then 2000 + toNatDigits g.2.2 else toNatDigits g.2.2)
      (toNatDigits g.2.1) (toNatDigits g.1)

def pyStrip (s : List Char) : List Char :=
  ((s.dropWhile pyIsSpace).reverse.dropWhile pyIsSpace).reverse

def tryGroups (r : Option Groups3) : Option String :=
  match r with
  | some g => dateFromGroups g
  | none => none

/-- `normalize_date` (source lines 35-63).  The external call
`dateutil.parser.parse(s, dayfirst=True, fuzzy=True)` in the final fallback
is passed in as the parameter `fb`. -/
def normalize_date (fb : String → Option String) (t : String) : Option String :=
  let cs := pyStrip t.data
  match tryGroups (scanFrom matchNumA none cs) with
  | some r => some r
  | none =>
    match tryGroups (scanFrom matchNumB none cs) with
    | some r => some r
    | none =>
      match tryGroups (scanFrom matchNumC none cs) with
      | some r => some r
      | none => fb (String.mk cs)

/-! ### Model of the dateutil fallback -/

structure PyDate where
  year : Nat
  month : Nat
  day : Nat

def digitRunsAux : List Char → List Char → List (List Char)
  | cur, [] => if cur.isEmpty then [] else [cur.reverse]
  | cur, c :: cs =>
    if isDig c then digitRunsAux (c :: cur) cs
    else if cur.isEmpty then digitRunsAux [] cs
    else cur.reverse :: digitRunsAux [] cs

/-- The maximal digit runs of a string, in order. -/
def digitRuns (cs : List Char) : List (List Char) := digitRunsAux [] cs

/-- Model of the external `dateutil.parser.parse(s, dayfirst=True, fuzzy=True)`
call with the library's default of filling missing fields from the current
date `now`: non-numeric tokens are skipped (fuzzy); three digit runs whose
third member is four digits wide resolve with day-before-month preference,
falling back to the swapped month-day order when the preferred one is not a
real date, as dateutil's ymd resolution does; a lone four-digit run is a year
whose month and day are taken from `now`; anything else is unparseable
(`ValueError`, i.e. `none`). -/
def fuzzyParse (now : PyDate) (s : String) : Option String :=
  match digitRuns s.data with
  | [a, b, c] =>
    if a.length ≤ 2 && b.length ≤ 2 && c.length = 4 then
      match dateYMD (toNatDigits c) (toNatDigits b) (toNatDigits a) with
      | some v => some v
      | none => dateYMD (toNatDigits c) (toNatDigits a) (toNatDigits b)
    else none
  | [a] =>
    if a.length = 4 then dateYMD (toNatDigits a) now.month now.day else none
  | _ => none

/-! ### Hint words and find_first_by_hints (source lines 10-18, 93-115) -/

/-- The simple shapes occurring in the hint regexes: case-insensitive
literals, `\s*`, and a two-way alternation of literals. -/
inductive Pat : Type
  | lit (s : String)
  | ws
  | alt2 (a b : String)

def matchPats : List Pat → List Char → Option (List Char)
  | [], cs => some cs
  | Pat.lit s :: ps, cs =>
    match takeLitI s.data cs with
    | some r => matchPats ps r
    | none => none
  | Pat.ws :: ps, cs => matchPats ps (cs.dropWhile pyIsSpace)
  | Pat.alt2 a b :: ps, cs =>
    match (match takeLitI a.data cs with
           | some r => matchPats ps r
           | none => none) with
    | some q => some q
    | none =>
      match takeLitI b.data cs with
      | some r => matchPats ps r
      | none => none

/-- `re.search` for a hint pattern, returning the start offset of the
leftmost match (`m.start()`). -/
def searchPats (ps : List Pat) : Nat → List Char → Option Nat
  | pos, cs =>
    match matchPats ps cs with
    | some _ => some pos
    | none =>
      match cs with
      | [] => none
      | _ :: rest => searchPats ps (pos + 1) rest

/-- `DATE_HINT_WORDS` (source lines 10-13). -/
def DATE_HINTS : List (List Pat) :=
  [[Pat.lit "datum", Pat.ws, Pat.lit "vystav", Pat.alt2 "e" "ě", Pat.lit "ní"],
   [Pat.lit "vystaveno"],
   [Pat.lit "date", Pat.ws, Pat.lit "of", Pat.ws, Pat.lit "issue"],
   [Pat.lit "issue", Pat.ws, Pat.lit "date"],
   [Pat.lit "datum"],
   [Pat.lit "date"]]

/-- `SUPPLIER_HINT_WORDS` (source line 18). -/
def SUPPLIER_HINTS : List (List Pat) :=
  [[Pat.lit "dodavatel"], [Pat.lit "supplier"], [Pat.lit "vystavitel"]]

/-- Python `str.splitlines` line-break characters. -/
def isLineBreak (c : Char) : Bool :=
  c = '\n' || c = '\r' || c.toNat = 0x0b || c.toNat = 0x0c || c.toNat = 0x1c ||
  c.toNat = 0x1d || c.toNat = 0x1e || c.toNat = 0x85 || c.toNat = 0x2028 ||
  c.toNat = 0x2029

def splitlinesAux : List Char → List Char → List (List Char)
  | cur, [] => if cur.isEmpty then [] else [cur.reverse]
  | cur, '\r' :: '\n' :: rest => cur.reverse :: splitlinesAux [] rest
  | cur, c :: rest =>
    if isLineBreak c then cur.reverse :: splitlinesAux [] rest
    else splitlinesAux (c :: cur) rest

def pySplitlines (cs : List Char) : List (List Char) := splitlinesAux [] cs

/-- The stripped non-empty lines of the document
(`[l.strip() for l in text.splitlines() if l.strip()]`). -/
def docLines (t : String) : List (List Char) :=
  ((pySplitlines t.data).map pyStrip).filter (fun l => !l.isEmpty)

/-- The line-index loop of `find_first_by_hints` (source lines 102-109):
accumulate `len(l)+1` until the sum exceeds the match offset; if the loop
runs out, the index stays 0. -/
def lineIdxGo (pos : Nat) : Nat → Nat → List (List Char) → Nat
  | _, _, [] => 0
  | i, acc, l :: rest =>
    if acc + l.length + 1 > pos then i else lineIdxGo pos (i + 1) (acc + l.length + 1) rest

def lineIdx (lines : List (List Char)) (pos : Nat) : Nat := lineIdxGo pos 0 0 lines

/-- The candidates yielded for one hint: lines `idx+1 .. idx+3` that exist
and have length at least 3 (`j != idx` skips the hint line itself). -/
def candAt (lines : List (List Char)) (idx : Nat) : List (List Char) :=
  ([idx + 1, idx + 2, idx + 3].filter (fun j => j < lines.length)).filterMap
    (fun j =>
      match lines.get? j with
      | some l => if 3 ≤ l.length then some l else none
      | none => none)

/-- `find_first_by_hints` (source lines 93-115) as the list of yielded
candidate lines, in generator order. -/
def find_first_by_hints (t : String) (hints : List (List Pat)) : List (List Char) :=
  let lines := docLines t
  let joined := (lines.intersperse ['\n']).flatten
  hints.flatMap fun hw =>
    match searchPats hw 0 joined with
    | some pos => candAt lines (lineIdx lines pos)
    | none => []

/-! ### extract_date (source lines 117-128) -/

/-- One `re.finditer` pass (source lines 123-126): at each position try the
matcher; on a match apply `f` to the matched text (`m.group(0)`); if `f`
fails continue after the match, as `finditer` does.  `fuel` bounds the
number of steps; every match consumes at least one character, so
`cs.length + 1` is enough. -/
def iterScan (m : List Char → Option (Groups3 × List Char))
    (f : List Char → Option String) :
    Nat → Option Char → List Char → Option String
  | 0, _, _ => none
  | fuel + 1, prev, cs =>
    match (if noWordBefore prev then m cs else none) with
    | some (_, rest) =>
      let matched := cs.take (cs.length - rest.length)
      match f matched with
      | some v => some v
      | none => iterScan m f fuel matched.getLast? rest
    | none =>
      match cs with
      | [] => none
      | c :: rest => iterScan m f fuel (some c) rest

/-- `extract_date` (source lines 117-128): hint-proximity candidates through
`normalize_date`, then a global scan with the three date regexes, then the
whole text through `normalize_date`. -/
def extract_date (fb : String → Option String) (t : String) : Option String :=
  match firstSome (find_first_by_hints t DATE_HINTS)
      (fun line => normalize_date fb (String.mk line)) with
  | some dt => some dt
  | none =>
    let glob := fun m => iterScan m (fun g => normalize_date fb (String.mk g))
      (t.data.length + 1) none t.data
    match glob matchNumA with
    | some dt => some dt
    | none =>
      match glob matchNumB with
      | some dt => some dt
      | none =>
        match glob matchNumC with
        | some dt => some dt
        | none => normalize_date fb t

/-! ### extract_invoice_no (INVOICE_NO_REGEXES, source lines 28-33, 130-143) -/

/-- The value class `[A-Z0-9 slash dash]` under IGNORECASE. -/
def valClass (c : Char) : Bool :=
  isAsciiUpper c || isAsciiLower c || isDig c || c = '/' || c = '-'

/-- `[:\s]*` followed by the captured `([A-Z0-9 slash dash]+)`: greedy and
deterministic because the classes are disjoint. -/
def grabValue (r : List Char) : Option (List Char) :=
  let v := (r.dropWhile (fun c => c = ':' || pyIsSpace c)).takeWhile valClass
  if v.isEmpty then none else some v

/-- Match, at the current position, of the first labelled regex
`(?:číslo|cislo)\s*faktury[:\s]*([A-Z0-9 slash dash]+)`. -/
def matchInv1 (cs : List Char) : Option (List Char) :=
  firstSome ["číslo", "cislo"] fun w =>
    match takeLitI w.data cs with
    | none => none
    | some r1 =>
      match takeLitI "faktury".data (r1.dropWhile pyIsSpace) with
      | none => none
      | some r2 => grabValue r2

/-- Match, at the current position, of
`faktura\s*(?:č\.|#)?[:\s]*([A-Z0-9 slash dash]+)` (the optional group
backtracks into the continuation). -/
def matchInv2 (cs : List Char) : Option (List Char) :=
  match takeLitI "faktura".data cs with
  | none => none
  | some r1 =>
    let r2 := r1.dropWhile pyIsSpace
    firstSome [takeLitI "č.".data r2, takeLitI "#".data r2, some r2] fun o =>
      match o with
      | some r => grabValue r
      | none => none

/-- Match, at the current position, of
`invoice\s*(?:no\.|number|#)?[:\s]*([A-Z0-9 slash dash]+)`. -/
def matchInv3 (cs : List Char) : Option (List Char) :=
  match takeLitI "invoice".data cs with
  | none => none
  | some r1 =>
    let r2 := r1.dropWhile pyIsSpace
    firstSome [takeLitI "no.".data r2, takeLitI "number".data r2,
               takeLitI "#".data r2, some r2] fun o =>
      match o with
      | some r => grabValue r
      | none => none

/-- Match, at the current position (leading `\b` checked by the caller), of
`\b(?:inv|var|vs)\s*[:#]?\s*([A-Z0-9 slash dash]{3,})`. -/
def matchInv4 (cs : List Char) : Option (List Char) :=
  firstSome ["inv", "var", "vs"] fun w =>
    match takeLitI w.data cs with
    | none => none
    | some r1 =>
      let r2 := r1.dropWhile pyIsSpace
      let grab3 := fun (r : List Char) =>
        let v := (r.dropWhile pyIsSpace).takeWhile valClass
        if 3 ≤ v.length then some v else none
      match r2 with
      | c :: rest =>
        if c = ':' || c = '#' then
          match grab3 rest with
          | some v => some v
          | none => grab3 r2
        else grab3 r2
      | [] => grab3 r2

/-- Take exactly `n` characters of class `p`, returning the rest. -/
def takeClassN (p : Char → Bool) : Nat → List Char → Option (List Char)
  | 0, cs => some cs
  | _ + 1, [] => none
  | n + 1, c :: cs => if p c then takeClassN p n cs else none

/-- First alternative of the loose fallback regex:
`[A-Z]{1,4}[-slash]?\d{2,4}[-slash]\d{2,6}` followed by `\b`; returns the
rest after the match. -/
def looseAlt1 (cs : List Char) : Option (List Char) :=
  firstSome [4, 3, 2, 1] fun nl =>
    match takeClassN isAsciiAlpha nl cs with
    | none => none
    | some r1 =>
      let withSep : Option (List Char) :=
        match r1 with
        | c :: rest => if c = '-' || c = '/' then some rest else none
        | [] => none
      firstSome [withSep, some r1] fun o =>
        match o with
        | none => none
        | some r2 =>
          firstSome [4, 3, 2] fun nd =>
            match takeClassN isDig nd r2 with
            | none => none
            | some r3 =>
              match r3 with
              | c :: r4 =>
                if c = '-' || c = '/' then
                  firstSome [6, 5, 4, 3, 2] fun nd2 =>
                    match takeClassN isDig nd2 r4 with
                    | none => none
                    | some r5 => if boundaryAfterWord r5 then some r5 else none
                else none
              | [] => none

/-- Second alternative `[0-9]{3,}/[0-9]{2,4}` followed by `\b`.  The
unbounded `{3,}` is deterministic (a shorter take is followed by a digit,
not the slash). -/
def looseAlt2 (cs : List Char) : Option (List Char) :=
  let run := cs.takeWhile isDig
  if 3 ≤ run.length then
    match cs.drop run.length with
    | '/' :: r2 =>
      firstSome [4, 3, 2] fun nd =>
        match takeClassN isDig nd r2 with
        | none => none
        | some r3 => if boundaryAfterWord r3 then some r3 else none
    | _ => none
  else none

/-- Third alternative `[A-Z0-9]{5,}` followed by `\b`.  Only the maximal
run can satisfy the trailing boundary, since any shorter take is followed
by another class character, which is a word character. -/
def looseAlt3 (cs : List Char) : Option (List Char) :=
  let run := cs.takeWhile isAsciiAlnum
  if 5 ≤ run.length then
    let rest := cs.drop run.length
    if boundaryAfterWord rest then some rest else none
  else none

/-- Match, at the current position, of the loose fallback regex
(source lines 139-140); returns the captured text, which is the whole
match. -/
def matchLoose (cs : List Char) : Option (List Char) :=
  match firstSome [looseAlt1 cs, looseAlt2 cs, looseAlt3 cs] id with
  | some rest => some (cs.take (cs.length - rest.length))
  | none => none

def upChar (c : Char) : Char :=
  if isAsciiLower c then Char.ofNat (c.toNat - 32) else c

/-- `re.sub(r"[^A-Z0-9 slash dash]", "", raw.upper())` applied to the
stripped captured group. -/
def cleanRaw (raw : List Char) : List Char :=
  ((pyStrip raw).map upChar).filter
    (fun c => isAsciiUpper c || isDig c || c = '/' || c = '-')

/-- The loose fallback stage of `extract_invoice_no` (source lines 138-143). -/
def invLoose (cs : List Char) : Option String :=
  match scanB matchLoose none cs with
  | some cap => some (String.mk (cap.map upChar))
  | none => none

/-- The loop iteration for the fourth labelled regex: a match whose cleaned
capture has length at least 3 is returned, anything else falls through. -/
def invStep4 (cs : List Char) : Option String :=
  match scanB matchInv4 none cs with
  | some raw => if 3 ≤ (cleanRaw raw).length then some (String.mk (cleanRaw raw)) else invLoose cs
  | none => invLoose cs

def invStep3 (cs : List Char) : Option String :=
  match scanPlain matchInv3 cs with
  | some raw => if 3 ≤ (cleanRaw raw).length then some (String.mk (cleanRaw raw)) else invStep4 cs
  | none => invStep4 cs

def invStep2 (cs : List Char) : Option String :=
  match scanPlain matchInv2 cs with
  | some raw => if 3 ≤ (cleanRaw raw).length then some (String.mk (cleanRaw raw)) else invStep3 cs
  | none => invStep3 cs

/-- `extract_invoice_no` (source lines 130-143): the four labelled regexes
in order, then the loose fallback. -/
def extract_invoice_no (t : String) : Option String :=
  match scanPlain matchInv1 t.data with
  | some raw =>
    if 3 ≤ (cleanRaw raw).length then some (String.mk (cleanRaw raw)) else invStep2 t.data
  | none => invStep2 t.data

/-! ### clean_company_name (source lines 145-157) -/

def czLetters : List Char :=
  ['Á', 'É', 'Í', 'Ó', 'Ú', 'Ý', 'Č', 'Ď', 'Ě', 'Ň', 'Ř', 'Š', 'Ť', 'Ů', 'Ž',
   'á', 'é', 'í', 'ó', 'ú', 'ý', 'č', 'ď', 'ě', 'ň', 'ř', 'š', 'ť', 'ů', 'ž']

/-- The character class of the leading-junk regex: ASCII alphanumerics plus
the Czech letters listed in the source. -/
def nameClass (c : Char) : Bool := isAsciiAlnum c || czLetters.contains c

/-- Match, at the current position, of `\S+@\S+`: the match exists exactly
when the maximal non-space run here has an at sign preceded and followed by
at least one further non-space character, and it consumes the whole run.
Returns the rest after the match. -/
def matchEmailAt (cs : List Char) : Option (List Char) :=
  let run := cs.takeWhile (fun c => !pyIsSpace c)
  if 3 ≤ run.length && ((run.drop 1).dropLast).contains '@' then some (cs.drop run.length)
  else none

def phoneClass (c : Char) : Bool := isDig c || pyIsSpace c || c = '-'

/-- The mandatory part `\d[\d\s\-]{6,}` of the phone regex (greedy). -/
def phoneCore : List Char → Option (List Char)
  | [] => none
  | d :: rest =>
    if isDig d then
      if 6 ≤ (rest.takeWhile phoneClass).length then
        some (rest.drop (rest.takeWhile phoneClass).length)
      else none
    else none

/-- Match, at the current position, of `\+?\d[\d\s\-]{6,}` (the optional
plus backtracks into the continuation). -/
def matchPhoneAt (cs : List Char) : Option (List Char) :=
  match cs with
  | c :: rest =>
    if c = '+' then
      match phoneCore rest with
      | some r => some r
      | none => phoneCore cs
    else phoneCore cs
  | [] => phoneCore []

def ADDR_WORDS : List String :=
  ["ulice", "street", "ul.", "č.p.", "psc", "zip", "budova", "building"]

/-- Match, at the current position (leading `\b` checked by the caller), of
the address-tail regex: one of the address keywords, a trailing `\b`, then
`.*` up to the end of the line (a dot does not match a newline). -/
def matchAddrAt (cs : List Char) : Option (List Char) :=
  firstSome ADDR_WORDS fun w =>
    match takeLitI w.data cs with
    | none => none
    | some rest =>
      match w.data.getLast? with
      | none => none
      | some lc =>
        if isBoundary (some lc) rest.head? then some (rest.dropWhile (fun c => c ≠ '\n'))
        else none

/-- `re.sub(pattern, "", s)` for a matcher without a leading boundary:
delete every non-overlapping match, scanning from the left and continuing
right after each deleted match.  Every match consumes at least one
character, so fuel `cs.length + 1` completes the scan. -/
def subDeleteAll (m : List Char → Option (List Char)) : Nat → List Char → List Char
  | 0, cs => cs
  | fuel + 1, cs =>
    match m cs with
    | some rest => subDeleteAll m fuel rest
    | none =>
      match cs with
      | [] => []
      | c :: rest => c :: subDeleteAll m fuel rest

/-- `re.sub(pattern, "", s)` for a matcher whose pattern starts with `\b`
followed by a word character (the address-tail regex): track the previous
character of the original string for the boundary test. -/
def subDeleteAllB (m : List Char → Option (List Char)) :
    Nat → Option Char → List Char → List Char
  | 0, _, cs => cs
  | fuel + 1, prev, cs =>
    match (if noWordBefore prev then m cs else none) with
    | some rest =>
      subDeleteAllB m fuel (cs.take (cs.length - rest.length)).getLast? rest
    | none =>
      match cs with
      | [] => []
      | c :: rest => c :: subDeleteAllB m fuel (some c) rest

/-- `re.sub(r"\s{2,}", " ", s)`: every maximal whitespace run of length at
least two becomes a single space. -/
def collapseWs : Nat → List Char → List Char
  | 0, cs => cs
  | _ + 1, [] => []
  | fuel + 1, c :: cs =>
    if pyIsSpace c then
      match cs with
      | c2 :: _ =>
        if pyIsSpace c2 then ' ' :: collapseWs fuel (cs.dropWhile pyIsSpace)
        else c :: collapseWs fuel cs
      | [] => [c]
    else c :: collapseWs fuel cs

def stripSet (c : Char) : Bool :=
  c.toNat = 32 || c.toNat = 46 || c.toNat = 44 || c.toNat = 45

/-- `s.strip(" .,-")`. -/
def stripPunct (cs : List Char) : List Char :=
  ((cs.dropWhile stripSet).reverse.dropWhile stripSet).reverse

/-- `s.rstrip()` (whitespace only). -/
def pyRstrip (cs : List Char) : List Char := (cs.reverse.dropWhile pyIsSpace).reverse

/-- `if len(s) > 60: s = s[:60].rstrip()`. -/
def truncate60 (cs : List Char) : List Char :=
  if 60 < cs.length then pyRstrip (cs.take 60) else cs

/-- `clean_company_name` (source lines 145-157). -/
def clean_company_name (t : String) : String :=
  let s1 := pyStrip t.data
  let s2 := s1.dropWhile (fun c => !nameClass c)
  let s3 := subDeleteAll matchEmailAt (s2.length + 1) s2
  let s4 := subDeleteAll matchPhoneAt (s3.length + 1) s3
  let s5 := subDeleteAllB matchAddrAt (s4.length + 1) none s4
  let s6 := collapseWs (s5.length + 1) s5
  let s7 := stripPunct s6
  String.mk (truncate60 s7)

/-! ### looks_like_company and extract_supplier (source lines 159-184) -/

/-- `COMPANY_MARKERS` (source line 20); the regexes are substring searches,
and the optional final dot of the last marker makes the bare substring
sufficient. -/
def COMPANY_MARKERS : List String :=
  ["s.r.o.", "a.s.", "sro", "as", "se", "gmbh", "kg", "spol.", "inc.", "ltd"]

def containsLitI (w : String) (cs : List Char) : Bool :=
  (scanPlain (fun s => takeLitI w.data s) cs).isSome

/-- Python `str.split()` with no separator: the maximal non-whitespace runs. -/
def splitWsAux : List Char → List Char → List (List Char)
  | cur, [] => if cur.isEmpty then [] else [cur.reverse]
  | cur, c :: rest =>
    if pyIsSpace c then
      if cur.isEmpty then splitWsAux [] rest else cur.reverse :: splitWsAux [] rest
    else splitWsAux (c :: cur) rest

def pySplitWs (cs : List Char) : List (List Char) := splitWsAux [] cs

def letterClass (c : Char) : Bool := isAsciiAlpha c || czLetters.contains c

/-- `looks_like_company` (source lines 159-165). -/
def looks_like_company (line : List Char) : Bool :=
  COMPANY_MARKERS.any (fun m => containsLitI m line) ||
  (8 < (line.filter letterClass).length && 2 ≤ (pySplitWs line).length)

def domClass (c : Char) : Bool :=
  isAsciiLower c || isAsciiUpper c || isDig c || c = '-'

/-- Match, at the current position (the leading `\b` is checked by the
caller), of the domain regex `([a-z0-9 dash]+)\.(cz|sk|com|eu|de)\b`;
returns the first captured group. -/
def matchDomain (cs : List Char) : Option (List Char) :=
  let run := cs.takeWhile domClass
  if run.isEmpty then none
  else
    match cs.drop run.length with
    | '.' :: r2 =>
      firstSome ["cz", "sk", "com", "eu", "de"] fun tld =>
        match takeLitI tld.data r2 with
        | none => none
        | some r3 => if boundaryAfterWord r3 then some run else none
    | _ => none

/-- `re.search` for a pattern starting with `\b` whose first character may be
a word or a non-word character: use the full boundary test. -/
def scanBndFull {β : Type} (m : List Char → Option β) :
    Option Char → List Char → Option β
  | prev, cs =>
    match (if isBoundary prev cs.head? then m cs else none) with
    | some g => some g
    | none =>
      match cs with
      | [] => none
      | c :: rest => scanBndFull m (some c) rest

def pyCapitalize (cs : List Char) : List Char :=
  match cs with
  | [] => []
  | c :: rest => upChar c :: rest.map lowChar

/-- `extract_supplier` (source lines 167-184). -/
def extract_supplier (t : String) : Option String :=
  match firstSome (find_first_by_hints t SUPPLIER_HINTS) (fun cand =>
      let c := clean_company_name (String.mk cand)
      if 3 ≤ c.length then some c else none) with
  | some v => some v
  | none =>
    match firstSome ((docLines t).take 12) (fun l =>
        if looks_like_company l then
          let c := clean_company_name (String.mk l)
          if 3 ≤ c.length then some c else none
        else none) with
    | some v => some v
    | none =>
      match scanBndFull matchDomain none t.data with
      | some grp => some (String.mk (pyCapitalize grp))
      | none => none

/-! ### sanitize_filename and build_new_name (source lines 186-201) -/

def reservedClass (c : Char) : Bool :=
  c = ':' || c = '*' || c = '?' || c = '"' || c = '<' || c = '>' || c = '|'

/-- `sanitize_filename` (source lines 186-191). -/
def sanitize_filename (t : String) : String :=
  let s1 := t.data.map (fun c => if c = '/' then '-' else c)
  let s2 := s1.map (fun c => if c = '\\' then '-' else c)
  let s3 := s2.map (fun c => if reservedClass c then '-' else c)
  String.mk (pyStrip (collapseWs (s3.length + 1) s3))

/-- Model of the external `unidecode` call, restricted to the characters
this development uses: ASCII maps to itself, the Czech accented letters map
to their base letters, and any other character is dropped (the real library
transliterates all of Unicode). -/
def unidecodeChar (c : Char) : List Char :=
  if c.toNat < 128 then [c]
  else
    match c with
    | 'á' => ['a'] | 'é' => ['e'] | 'í' => ['i'] | 'ó' => ['o'] | 'ú' => ['u']
    | 'ý' => ['y'] | 'č' => ['c'] | 'ď' => ['d'] | 'ě' => ['e'] | 'ň' => ['n']
    | 'ř' => ['r'] | 'š' => ['s'] | 'ť' => ['t'] | 'ů' => ['u'] | 'ž' => ['z']
    | 'Á' => ['A'] | 'É' => ['E'] | 'Í' => ['I'] | 'Ó' => ['O'] | 'Ú' => ['U']
    | 'Ý' => ['Y'] | 'Č' => ['C'] | 'Ď' => ['D'] | 'Ě' => ['E'] | 'Ň' => ['N']
    | 'Ř' => ['R'] | 'Š' => ['S'] | 'Ť' => ['T'] | 'Ů' => ['U'] | 'Ž' => ['Z']
    | _ => []

def unidecodeStr (t : String) : String := String.mk (t.data.flatMap unidecodeChar)

/-- Python `x or dflt` for an optional string (both absence and the empty
string are falsy). -/
def pyOr (x : Option String) (dflt : String) : String :=
  match x with
  | some s => if s.isEmpty then dflt else s
  | none => dflt

/-- `build_new_name` (source lines 193-201). -/
def build_new_name (date_str supplier invno : Option String) : String :=
  let parts := [pyOr date_str "0000-00-00", pyOr supplier "Neznamy-dodavatel",
                pyOr invno "Bez-cisla"]
  sanitize_filename (unidecodeStr (String.intercalate " " parts ++ ".pdf"))

/-! ### process_pdf and the batch loop of main (source lines 203-243) -/

/-- The behaviour of the external rendering and OCR collaborators for one
input document: `noPage` models a PDF with no pages, `page text` a render
whose OCR produces `text`, and `exn msg` an exception raised inside the
processing of this document. -/
inductive RenderResult : Type
  | exn (msg : String)
  | noPage
  | page (text : String)

/-- `process_pdf` (source lines 203-216) over a `RenderResult`. -/
def process_pdf (fb : String → Option String) :
    RenderResult → Except String (Option String × Option String × Option String × String)
  | .exn m => .error m
  | .noPage => .ok (none, none, none, "NO_PAGE")
  | .page t =>
    .ok (some ((extract_date fb t).getD ""), some ((extract_supplier t).getD ""),
         some ((extract_invoice_no t).getD ""), "OK")

/-- One row of the batch log: `[f, date, sup, inv, new_name, status]`. -/
structure Row where
  orig : String
  date : Option String
  supplier : Option String
  invoice : Option String
  proposed : String
  status : String
deriving Repr, DecidableEq

/-- One iteration of the batch loop of `main` (source lines 230-237): the
`try` around `process_pdf` and `build_new_name` turns an exception into an
`ERROR:` row. -/
def runOne (fb : String → Option String) (f : String) (d : RenderResult) : Row :=
  match process_pdf fb d with
  | .error e => ⟨f, some "", some "", some "", "", "ERROR:" ++ e⟩
  | .ok (date, sup, inv, status) =>
    let newName := if status = "OK" then build_new_name date sup inv else ""
    ⟨f, date, sup, inv, newName, status⟩

/-- The batch loop of `main`: one row per input document, in order. -/
def mainRows (fb : String → Option String) (docs : List (String × RenderResult)) :
    List Row :=
  docs.map fun fd => runOne fb fd.1 fd.2

/-! ### The collision-avoidance loop of main (source lines 246-256) -/

/-- `os.path.splitext` on a bare file name: split at the last dot, provided
some character before it is not a dot. -/
def splitext (cs : List Char) : List Char × List Char :=
  match (List.range cs.length).foldl
      (fun acc i => if cs.get? i = some '.' then some i else acc) none with
  | some i =>
    if (cs.take i).any (fun c => c ≠ '.') then (cs.take i, cs.drop i) else (cs, [])
  | none => (cs, [])

def digitChar (d : Nat) : Char := Char.ofNat (48 + d)

def natDigsAux : Nat → Nat → List Char
  | 0, n => [digitChar n]
  | fuel + 1, n =>
    if n < 10 then [digitChar n]
    else natDigsAux fuel (n / 10) ++ [digitChar (n % 10)]

/-- The decimal digits of a natural number, most significant first, as
rendered by a Python f-string (the fuel `n` always suffices). -/
def natDigs (n : Nat) : List Char := natDigsAux n n

/-- The disambiguated candidate name `f"{base} ({i}){ext}"`. -/
def variantName (p : String) (i : Nat) : String :=
  let be := splitext p.data
  String.mk (be.1 ++ (' ' :: '(' :: natDigs i) ++ (')' :: be.2))

def resolveLoop (ex : List String) (p : String) : Nat → Nat → String
  | 0, i => variantName p i
  | fuel + 1, i =>
    let v := variantName p i
    if v ∈ ex then resolveLoop ex p fuel (i + 1) else v

/-- The collision-avoidance loop of `main` (source lines 251-256): if the
proposed name is not taken return it unchanged, otherwise try `base (2)ext`,
`base (3)ext`, ... and return the first free candidate.  The fuel
`ex.length + 1` always suffices because the candidates are pairwise
distinct. -/
def resolve (ex : List String) (p : String) : String :=
  if p ∈ ex then resolveLoop ex p (ex.length + 1) 2 else p

/-! ### Predicates used by the theorem statements -/

/-- A digit string whose length lies in the interval `[lo, hi]`. -/
def DigStr (lo hi : Nat) (l : List Char) : Prop :=
  lo ≤ l.length ∧ l.length ≤ hi ∧ ∀ c ∈ l, isDig c = true

/-- The input contains a maximal run of at least five ASCII alphanumeric
characters whose flanks (when present) are not word characters. -/
def cleanRun (cs : List Char) : Prop :=
  ∃ pre run post, cs = pre ++ run ++ post ∧ 5 ≤ run.length ∧
    (∀ c ∈ run, isAsciiAlnum c = true) ∧
    (∀ fl, pre.getLast? = some fl → isWordChar fl = false) ∧
    (∀ c, post.head? = some c → isWordChar c = false)

/-- Some position carries a digit followed by at least six phone-class
characters, i.e. the phone regex has a match. -/
def hasPhoneRun : List Char → Bool
  | [] => false
  | c :: rest => (isDig c && 6 ≤ (rest.takeWhile phoneClass).length) || hasPhoneRun rest

/-- Two adjacent whitespace characters occur somewhere. -/
def hasDoubleSpace : List Char → Bool
  | [] => false
  | [_] => false
  | a :: b :: r => (pyIsSpace a && pyIsSpace b) || hasDoubleSpace (b :: r)

/-- Printable ASCII (a space or a visible character). -/
def asciiOk (c : Char) : Bool := c.toNat = 32 || (33 ≤ c.toNat && c.toNat ≤ 126)

/-- A company name already in cleaned form: printable ASCII, starts with a
name character, does not end in a stripped character, and contains no
email, phone run, address keyword or repeated whitespace, within the length
bound.  On such strings every stage of `clean_company_name` is the
identity. -/
def isCleanForm (cs : List Char) : Bool :=
  cs.all asciiOk &&
  (match cs.head? with | none => true | some c => nameClass c) &&
  (match cs.getLast? with | none => true | some c => !stripSet c) &&
  !cs.contains '@' &&
  !hasPhoneRun cs &&
  !(scanB matchAddrAt none cs).isSome &&
  !hasDoubleSpace cs &&
  cs.length ≤ 60

end InvoiceRenamer

namespace InvoiceRenamer

/-- C2: on the text "Invoice No: FA-2025/0099" the extractor does not return
the labelled value "FA-2025/0099"; the labelled pattern captures only "No"
(because its optional group requires a literal dot after "no", not the colon
that is present), the two-character capture is rejected by the length-3
check, and the loose `inv`-prefix regex then matches "Inv" + "oice" inside
the word "Invoice" itself, so the code returns "OICE". -/
theorem C2_extract_invoice_no_on_labeled_text :
    extract_invoice_no "Invoice No: FA-2025/0099" = some "OICE" ∧
    some "OICE" ≠ some "FA-2025/0099" := by
  exact ⟨rfl, by decide⟩

/-- C8: `build_new_name` with all three fields missing produces exactly the
concatenation of the three pairwise-distinct sentinel tokens, contains no
filesystem-reserved characters, and ends in ".pdf". -/
theorem C8_build_name_all_sentinels :
    build_new_name none none none =
      "0000-00-00" ++ " " ++ "Neznamy-dodavatel" ++ " " ++ "Bez-cisla" ++ ".pdf" ∧
    ("0000-00-00" : String) ≠ "Neznamy-dodavatel" ∧
    ("0000-00-00" : String) ≠ "Bez-cisla" ∧
    ("Neznamy-dodavatel" : String) ≠ "Bez-cisla" ∧
    (build_new_name none none none).data.all
      (fun c => !(c = '/' || c = '\\' || reservedClass c)) = true ∧
    (".pdf").data.isSuffixOf (build_new_name none none none).data = true := by
  refine ⟨rfl, by decide, by decide, by decide, by decide, by decide⟩

/-- C3 (counterexample): a fragment whose (first) numeric date match is the
invalid combination 99.9.99 — rejected by calendar validation — does not
make `normalize_date` return absence: the later Y-M-D pattern still matches
elsewhere in the fragment and its date is returned. -/
theorem C3_counterexample :
    scanFrom matchNumA none (pyStrip ("99.9.99 2025-09-12").data) =
      some ("99".data, "9".data, "99".data) ∧
    dateFromGroups ("99".data, "9".data, "99".data) = none ∧
    normalize_date (fuzzyParse ⟨2025, 1, 15⟩) "99.9.99 2025-09-12" = some "2025-09-12" := by
  exact ⟨rfl, rfl, rfl⟩

/-- C4 (counterexample): `normalize_date` on "12.9.123" returns a date with
year 123, because a three-digit year group is neither two digits (no 2000
expansion) nor four digits, and `datetime` accepts any year from 1; the
CalendarDate invariant year ≥ 1900 is violated. -/
theorem C4_counterexample :
    normalize_date (fuzzyParse ⟨2025, 1, 15⟩) "12.9.123" = some (fmtDate 123 9 12) ∧
    123 < 1900 := by
  exact ⟨rfl, by decide⟩

/-- C7 (counterexample): company-name cleaning is not idempotent.  On
"ab tab dash" the first pass strips the trailing dash, uncovering a trailing
tab that `strip(" .,-")` does not remove, and the second pass's leading
`strip()` then removes that tab. -/
theorem C7_counterexample :
    clean_company_name "ab\t-" = "ab\t" ∧
    clean_company_name (clean_company_name "ab\t-") = "ab" ∧
    clean_company_name (clean_company_name "ab\t-") ≠ clean_company_name "ab\t-" := by
  exact ⟨rfl, rfl, by decide⟩

/-! Identity lemmas for the cleaning stages (C7 amended). -/

theorem dropWhile_id_of_head {p : Char → Bool} {cs : List Char}
    (h : ∀ c, cs.head? = some c → p c = false) : cs.dropWhile p = cs := by
  cases cs with
  | nil => rfl
  | cons c rest =>
    rw [List.dropWhile_cons_of_neg]
    simp [h c rfl]

theorem stripEnds_id {p : Char → Bool} {cs : List Char}
    (hh : ∀ c, cs.head? = some c → p c = false)
    (hl : ∀ c, cs.getLast? = some c → p c = false) :
    ((cs.dropWhile p).reverse.dropWhile p).reverse = cs := by
  rw [dropWhile_id_of_head hh]
  rw [dropWhile_id_of_head (fun c hc => hl c (by rwa [List.head?_reverse] at hc))]
  exact List.reverse_reverse cs

theorem mem_of_getLast_opt {l : List Char} {c : Char} (h : l.getLast? = some c) :
    c ∈ l := by
  obtain ⟨hne, rfl⟩ := List.mem_getLast?_eq_getLast (l := l) (x := c) (by rw [h]; simp)
  exact List.getLast_mem hne

theorem subDeleteAll_succ (m : List Char → Option (List Char)) (fuel : Nat)
    (cs : List Char) :
    subDeleteAll m (fuel + 1) cs =
      match m cs with
      | some rest => subDeleteAll m fuel rest
      | none =>
        match cs with
        | [] => []
        | c :: rest => c :: subDeleteAll m fuel rest := rfl

theorem subDeleteAll_id (m : List Char → Option (List Char)) :
    ∀ (fuel : Nat) (cs : List Char), (∀ s, s <:+ cs → m s = none) →
      subDeleteAll m fuel cs = cs := by
  intro fuel
  induction fuel with
  | zero => intro cs _; rfl
  | succ fuel ih =>
    intro cs h
    rw [subDeleteAll_succ, h cs (List.suffix_refl cs)]
    cases cs with
    | nil => rfl
    | cons c rest =>
      have : subDeleteAll m fuel rest = rest :=
        ih rest (fun s hs => h s (hs.trans (List.suffix_cons c rest)))
      simp [this]

theorem scanB_cons {β : Type} (m : List Char → Option β) (prev : Option Char)
    (c : Char) (rest : List Char) :
    scanB m prev (c :: rest) =
      match (if noWordBefore prev then m (c :: rest) else none) with
      | some g => some g
      | none => scanB m (some c) rest := rfl

theorem scanB_nil_none {β : Type} {m : List Char → Option β} {prev : Option Char}
    (h : scanB m prev [] = none) :
    (if noWordBefore prev = true then m [] else none) = none := by
  rw [scanB] at h
  cases hif : (if noWordBefore prev = true then m [] else none) with
  | some g => rw [hif] at h; exact absurd h (by simp)
  | none => rfl

theorem scanB_none_inv {β : Type} {m : List Char → Option β} {prev : Option Char}
    {cs : List Char} (h : scanB m prev cs = none) :
    ∀ c rest, cs = c :: rest → scanB m (some c) rest = none := by
  intro c rest hcs
  subst hcs
  rw [scanB_cons] at h
  cases hif : (if noWordBefore prev = true then m (c :: rest) else none) with
  | some g => rw [hif] at h; exact absurd h (by simp)
  | none => rw [hif] at h; exact h

theorem scanB_none_head {β : Type} {m : List Char → Option β} {prev : Option Char}
    {c : Char} {rest : List Char} (h : scanB m prev (c :: rest) = none)
    (hw : noWordBefore prev = true) : m (c :: rest) = none := by
  rw [scanB_cons, if_pos hw] at h
  cases hm : m (c :: rest) with
  | some g => rw [hm] at h; exact absurd h (by simp)
  | none => rfl

theorem subDeleteAllB_succ (m : List Char → Option (List Char)) (fuel : Nat)
    (prev : Option Char) (cs : List Char) :
    subDeleteAllB m (fuel + 1) prev cs =
      match (if noWordBefore prev then m cs else none) with
      | some rest => subDeleteAllB m fuel (cs.take (cs.length - rest.length)).getLast? rest
      | none =>
        match cs with
        | [] => []
        | c :: rest => c :: subDeleteAllB m fuel (some c) rest := rfl

theorem subDeleteAllB_id (m : List Char → Option (List Char)) :
    ∀ (fuel : Nat) (prev : Option Char) (cs : List Char), scanB m prev cs = none →
      subDeleteAllB m fuel prev cs = cs := by
  intro fuel
  induction fuel with
  | zero => intro prev cs _; rfl
  | succ fuel ih =>
    intro prev cs h
    rw [subDeleteAllB_succ]
    cases cs with
    | nil => rw [scanB_nil_none h]
    | cons c rest =>
      have hm : (if noWordBefore prev = true then m (c :: rest) else none) = none := by
        by_cases hw : noWordBefore prev = true
        · rw [if_pos hw]
          exact scanB_none_head h hw
        · rw [if_neg hw]
      rw [hm]
      simp [ih (some c) rest (scanB_none_inv h c rest rfl)]

theorem matchEmailAt_none {s : List Char} (h : '@' ∉ s) : matchEmailAt s = none := by
  rw [matchEmailAt]
  cases hcon : (((s.takeWhile (fun c => !pyIsSpace c)).drop 1).dropLast).contains '@' with
  | false => simp [hcon]
  | true =>
    exfalso
    have hmem : '@' ∈ ((s.takeWhile (fun c => !pyIsSpace c)).drop 1).dropLast := by
      simpa using hcon
    exact h ((List.takeWhile_prefix _).subset
      ((List.drop_subset _ _) (List.dropLast_subset _ hmem)))

theorem hasPhoneRun_suffix : ∀ {cs s : List Char}, s <:+ cs →
    hasPhoneRun cs = false → hasPhoneRun s = false := by
  intro cs
  induction cs with
  | nil => intro s hs _; rw [List.suffix_nil.mp hs]; rfl
  | cons c rest ih =>
    intro s hs h
    rw [hasPhoneRun] at h
    simp only [Bool.or_eq_false_iff] at h
    rcases List.suffix_cons_iff.mp hs with rfl | hs2
    · rw [hasPhoneRun]
      simp [h.1, h.2]
    · exact ih hs2 h.2

theorem phoneCore_none {s : List Char} (h : hasPhoneRun s = false) : phoneCore s = none := by
  cases s with
  | nil => rfl
  | cons d v =>
    rw [hasPhoneRun] at h
    simp only [Bool.or_eq_false_iff, Bool.and_eq_false_iff] at h
    rw [phoneCore]
    rcases h.1 with hd | hlen
    · rw [if_neg (by simp [hd])]
    · by_cases hdig : isDig d = true
      · rw [if_pos hdig, if_neg (by simpa using hlen)]
      · rw [if_neg hdig]

theorem matchPhoneAt_none {s : List Char} (h : hasPhoneRun s = false) :
    matchPhoneAt s = none := by
  cases s with
  | nil => rfl
  | cons c rest =>
    rw [matchPhoneAt]
    have hrest : hasPhoneRun rest = false := by
      rw [hasPhoneRun] at h
      simp only [Bool.or_eq_false_iff] at h
      exact h.2
    by_cases hc : c = '+'
    · rw [if_pos hc, phoneCore_none hrest]
      exact phoneCore_none h
    · rw [if_neg hc]
      exact phoneCore_none h

theorem collapseWs_nil (fuel : Nat) : collapseWs (fuel + 1) [] = [] := rfl

theorem collapseWs_cons (fuel : Nat) (c : Char) (cs : List Char) :
    collapseWs (fuel + 1) (c :: cs) =
      if pyIsSpace c then
        match cs with
        | c2 :: _ =>
          if pyIsSpace c2 then ' ' :: collapseWs fuel (cs.dropWhile pyIsSpace)
          else c :: collapseWs fuel cs
        | [] => [c]
      else c :: collapseWs fuel cs := rfl

theorem collapseWs_nil_any : ∀ fuel : Nat, collapseWs fuel [] = [] := by
  intro fuel
  cases fuel <;> rfl

theorem collapseWs_id : ∀ (fuel : Nat) (cs : List Char), hasDoubleSpace cs = false →
    collapseWs fuel cs = cs := by
  intro fuel
  induction fuel with
  | zero => intro cs _; rfl
  | succ fuel ih =>
    intro cs h
    cases cs with
    | nil => rfl
    | cons c rest =>
      rw [collapseWs_cons]
      cases rest with
      | nil =>
        split
        · rfl
        · rw [collapseWs_nil_any]
      | cons c2 r2 =>
        rw [hasDoubleSpace] at h
        simp only [Bool.or_eq_false_iff, Bool.and_eq_false_iff] at h
        have hrest := ih (c2 :: r2) h.2
        by_cases hc : pyIsSpace c = true
        · have hc2 : pyIsSpace c2 = false := by
            rcases h.1 with h1 | h1
            · exact absurd hc (by simp [h1])
            · exact h1
          rw [if_pos hc]
          simp [hc2, hrest]
        · rw [if_neg hc, hrest]

theorem cz_range : ∀ c ∈ czLetters, 193 ≤ c.toNat ∧ c.toNat ≤ 382 := by decide

theorem nameClass_facts {c : Char} (h : nameClass c = true) :
    pyIsSpace c = false ∧ stripSet c = false := by
  rw [nameClass] at h
  simp only [Bool.or_eq_true] at h
  rcases h with h | h
  · simp only [isAsciiAlnum, isAsciiAlpha, isAsciiLower, isAsciiUpper, isDig,
      Bool.or_eq_true, Bool.and_eq_true, decide_eq_true_eq] at h
    constructor
    · simp only [pyIsSpace, Bool.or_eq_false_iff, Bool.and_eq_false_iff,
        decide_eq_false_iff_not]
      omega
    · simp only [stripSet, Bool.or_eq_false_iff, decide_eq_false_iff_not]
      omega
  · have h128 : 193 ≤ c.toNat ∧ c.toNat ≤ 382 := cz_range c (by simpa using h)
    constructor
    · simp only [pyIsSpace, Bool.or_eq_false_iff, Bool.and_eq_false_iff,
        decide_eq_false_iff_not]
      omega
    · simp only [stripSet, Bool.or_eq_false_iff, decide_eq_false_iff_not]
      omega

theorem asciiOk_not_space {c : Char} (ha : asciiOk c = true) (hs : stripSet c = false) :
    pyIsSpace c = false := by
  simp only [asciiOk, Bool.or_eq_true, Bool.and_eq_true, decide_eq_true_eq] at ha
  simp only [stripSet, Bool.or_eq_false_iff, decide_eq_false_iff_not] at hs
  simp only [pyIsSpace, Bool.or_eq_false_iff, Bool.and_eq_false_iff,
    decide_eq_false_iff_not]
  omega

/-- C7 (amended): every string already in cleaned form — printable ASCII,
beginning with a name character, not ending in a stripped character, with no
email, phone run, address keyword or repeated whitespace, and at most 60
characters — is a fixed point of `clean_company_name`; cleaning is therefore
idempotent exactly on inputs whose first pass lands in this form, and the
counterexample shows the first pass can leave it (a trailing tab uncovered
by the punctuation strip, or a trailing punctuation character created by the
60-character truncation). -/
theorem C7_clean_company_name_fixes_clean_form (s : String)
    (h : isCleanForm s.data = true) : clean_company_name s = s := by
  rw [isCleanForm] at h
  simp only [Bool.and_eq_true] at h
  obtain ⟨⟨⟨⟨⟨⟨⟨hascii, hhead⟩, hlast⟩, hat⟩, hphone⟩, haddr⟩, hdbl⟩, hlen⟩ := h
  have hat2 : '@' ∉ s.data := by simpa using hat
  have hphone2 : hasPhoneRun s.data = false := by simpa using hphone
  have haddr2 : scanB matchAddrAt none s.data = none := by simpa using haddr
  have hdbl2 : hasDoubleSpace s.data = false := by simpa using hdbl
  have hlen2 : s.data.length ≤ 60 := by simpa using hlen
  have hheadName : ∀ c, s.data.head? = some c → nameClass c = true := by
    intro c hc
    cases hd : s.data with
    | nil => rw [hd] at hc; simp at hc
    | cons a t =>
      rw [hd] at hc
      simp only [List.head?_cons, Option.some.injEq] at hc
      subst hc
      rw [hd] at hhead
      simpa using hhead
  have hlastStrip : ∀ c, s.data.getLast? = some c → stripSet c = false := by
    intro c hc
    rw [hc] at hlast
    simpa using hlast
  have hasciiAll : ∀ c ∈ s.data, asciiOk c = true := by
    simpa [List.all_eq_true] using hascii
  have h1 : pyStrip s.data = s.data := by
    rw [pyStrip]
    refine stripEnds_id ?_ ?_
    · intro c hc
      exact (nameClass_facts (hheadName c hc)).1
    · intro c hc
      exact asciiOk_not_space (hasciiAll c (mem_of_getLast_opt hc)) (hlastStrip c hc)
  have h2 : s.data.dropWhile (fun c => !nameClass c) = s.data := by
    refine dropWhile_id_of_head ?_
    intro c hc
    simp [hheadName c hc]
  have h3 : subDeleteAll matchEmailAt (s.data.length + 1) s.data = s.data := by
    refine subDeleteAll_id _ _ _ ?_
    intro t ht
    exact matchEmailAt_none (fun hmem => hat2 (ht.subset hmem))
  have h4 : subDeleteAll matchPhoneAt (s.data.length + 1) s.data = s.data := by
    refine subDeleteAll_id _ _ _ ?_
    intro t ht
    exact matchPhoneAt_none (hasPhoneRun_suffix ht hphone2)
  have h5 : subDeleteAllB matchAddrAt (s.data.length + 1) none s.data = s.data :=
    subDeleteAllB_id _ _ _ _ haddr2
  have h6 : collapseWs (s.data.length + 1) s.data = s.data := collapseWs_id _ _ hdbl2
  have h7 : stripPunct s.data = s.data := by
    rw [stripPunct]
    refine stripEnds_id ?_ hlastStrip
    intro c hc
    exact (nameClass_facts (hheadName c hc)).2
  have h8 : truncate60 s.data = s.data := by
    rw [truncate60, if_neg]
    omega
  simp only [clean_company_name, h1, h2, h3, h4, h5, h6, h7, h8]

/-- Witness for C7 (amended) at a concrete cleaned-form name. -/
theorem C7_clean_company_name_fixes_clean_form_witness :
    isCleanForm ("Acme Corp").data = true ∧
    clean_company_name "Acme Corp" = "Acme Corp" :=
  ⟨by decide, C7_clean_company_name_fixes_clean_form "Acme Corp" (by decide)⟩

/-- C9 (counterexample): `extract_date` is not a pure function of its input
text: on "Total 2025" the numeric patterns fail and the dateutil fuzzy
fallback fills the missing month and day from the current date, so two
evaluations under different current dates return different results. -/
theorem C9_counterexample :
    extract_date (fuzzyParse ⟨2025, 1, 15⟩) "Total 2025" = some "2025-01-15" ∧
    extract_date (fuzzyParse ⟨2025, 3, 7⟩) "Total 2025" = some "2025-03-07" ∧
    extract_date (fuzzyParse ⟨2025, 1, 15⟩) "Total 2025" ≠
      extract_date (fuzzyParse ⟨2025, 3, 7⟩) "Total 2025" := by
  exact ⟨rfl, rfl, by decide⟩

/-- C9 (amended): the current date reaches `extract_date` only through the
fuzzy-parse fallback; on a text resolved by the numeric date patterns the
result is the same under every fallback, hence under every current date. -/
theorem C9_extract_date_independent_when_numeric :
    ∀ fb fb' : String → Option String,
      extract_date fb "12.09.2025" = some "2025-09-12" ∧
      extract_date fb' "12.09.2025" = extract_date fb "12.09.2025" := by
  intro fb fb'
  exact ⟨rfl, rfl⟩

/-! Character-class facts. -/

theorem sep_not_dig {c : Char} (h : sepClass c = true) : isDig c = false := by
  simp [sepClass] at h; simp [isDig]; omega

theorem sep_not_word {c : Char} (h : sepClass c = true) : isWordChar c = false := by
  simp [sepClass] at h
  simp [isWordChar, isAsciiAlnum, isAsciiAlpha, isAsciiLower, isAsciiUpper, isDig]
  omega

theorem dig_word {c : Char} (h : isDig c = true) : isWordChar c = true := by
  simp [isDig] at h
  simp [isWordChar, isAsciiAlnum, isAsciiAlpha, isDig]
  omega

theorem dig_not_sep {c : Char} (h : isDig c = true) : sepClass c = false := by
  simp [isDig] at h; simp [sepClass]; omega

theorem dig_not_space {c : Char} (h : isDig c = true) : pyIsSpace c = false := by
  simp [isDig] at h; simp [pyIsSpace]; omega

theorem sep_not_space {c : Char} (h : sepClass c = true) : pyIsSpace c = false := by
  simp [sepClass] at h; simp [pyIsSpace]; omega

theorem dig_ne_dot {c : Char} (h : isDig c = true) : (c = '.') = False := by
  simp only [eq_iff_iff, iff_false]
  intro he
  subst he
  exact absurd h (by decide)

theorem pyStrip_eq_self {cs : List Char} (h : ∀ c ∈ cs, pyIsSpace c = false) :
    pyStrip cs = cs := by
  have h1 : cs.dropWhile pyIsSpace = cs := by
    cases cs with
    | nil => rfl
    | cons c rest =>
      rw [List.dropWhile_cons_of_neg]
      simp [h c (by simp)]
  rw [pyStrip, h1]
  have h2 : cs.reverse.dropWhile pyIsSpace = cs.reverse := by
    cases hrev : cs.reverse with
    | nil => rfl
    | cons c rest =>
      rw [List.dropWhile_cons_of_neg]
      have : c ∈ cs := by
        rw [← List.mem_reverse, hrev]; simp
      simp [h c this]
  rw [h2, List.reverse_reverse]

/-! List-shape helpers. -/

theorem shape12 {l : List Char} (h1 : 1 ≤ l.length) (h2 : l.length ≤ 2) :
    (∃ a, l = [a]) ∨ (∃ a b, l = [a, b]) := by
  match l with
  | [] => simp at h1
  | [a] => exact Or.inl ⟨a, rfl⟩
  | [a, b] => exact Or.inr ⟨a, b, rfl⟩
  | a :: b :: c :: t => simp at h2

theorem shape2 {l : List Char} (h : l.length = 2) : ∃ a b, l = [a, b] := by
  match l with
  | [a, b] => exact ⟨a, b, rfl⟩
  | [] | [_] | _ :: _ :: _ :: _ => simp at h

theorem shape4 {l : List Char} (h : l.length = 4) : ∃ a b c d, l = [a, b, c, d] := by
  match l with
  | [a, b, c, d] => exact ⟨a, b, c, d, rfl⟩
  | [] | [_] | [_, _] | [_, _, _] => simp at h
  | _ :: _ :: _ :: _ :: _ :: _ => simp at h

theorem toNatDigits_two_lt_100 {x y : Char} (hx : isDig x = true) (hy : isDig y = true) :
    toNatDigits [x, y] < 100 := by
  simp [isDig] at hx hy
  simp [toNatDigits, digVal]
  omega

/-! Date normalizer (C1). -/

/-- C1: on a fragment that is a valid numeric date in D-M-Y (4-digit year),
D-M-Y (2-digit year, expanded to 2000+value) or Y-M-D form — widths decide
the reading — `normalize_date` returns the correct calendar date rendered
as YYYY-MM-DD, independently of the fuzzy fallback; in particular on the
three example fragments of the spec. -/
theorem C1_normalize_date_valid_forms :
    (∀ fb : String → Option String,
      normalize_date fb "2025-09-12" = some "2025-09-12" ∧
      normalize_date fb "12.09.2025" = some "2025-09-12" ∧
      normalize_date fb "12/9/25" = some "2025-09-12") ∧
    (∀ (fb : String → Option String) (ds ms ys : List Char) (s1 s2 : Char),
      DigStr 1 2 ds → DigStr 1 2 ms → DigStr 4 4 ys →
      sepClass s1 = true → sepClass s2 = true →
      validDate (toNatDigits ys) (toNatDigits ms) (toNatDigits ds) = true →
      normalize_date fb (String.mk (ds ++ s1 :: ms ++ s2 :: ys)) =
        some (fmtDate (toNatDigits ys) (toNatDigits ms) (toNatDigits ds))) ∧
    (∀ (fb : String → Option String) (ds ms ys : List Char) (s1 s2 : Char),
      DigStr 1 2 ds → DigStr 1 2 ms → DigStr 2 2 ys →
      sepClass s1 = true → sepClass s2 = true →
      validDate (2000 + toNatDigits ys) (toNatDigits ms) (toNatDigits ds) = true →
      normalize_date fb (String.mk (ds ++ s1 :: ms ++ s2 :: ys)) =
        some (fmtDate (2000 + toNatDigits ys) (toNatDigits ms) (toNatDigits ds))) ∧
    (∀ (fb : String → Option String) (ys ms ds : List Char) (s1 s2 : Char),
      DigStr 4 4 ys → DigStr 1 2 ms → DigStr 1 2 ds →
      sepClass s1 = true → sepClass s2 = true →
      validDate (toNatDigits ys) (toNatDigits ms) (toNatDigits ds) = true →
      normalize_date fb (String.mk (ys ++ s1 :: ms ++ s2 :: ds)) =
        some (fmtDate (toNatDigits ys) (toNatDigits ms) (toNatDigits ds))) := by
  refine ⟨fun fb => ⟨rfl, rfl, rfl⟩, ?_, ?_, ?_⟩
  · rintro fb ds ms ys s1 s2 ⟨hd1, hd2, hd⟩ ⟨hm1, hm2, hm⟩ ⟨hy1, hy2, hy⟩ hs1 hs2 hval
    obtain ⟨p, q, r, t, rfl⟩ := shape4 (Nat.le_antisymm hy2 hy1)
    rcases shape12 hd1 hd2 with ⟨a, rfl⟩ | ⟨a, b, rfl⟩ <;>
      rcases shape12 hm1 hm2 with ⟨c, rfl⟩ | ⟨c, d, rfl⟩ <;>
      · simp only [normalize_date, String.data]
        simp [*, scanFrom, scanB, matchNumA, matchNumB, firstSome, takeDigs, noWordBefore,
          boundaryAfterWord, tryGroups, dateFromGroups, dateYMD, pyStrip, List.dropWhile,
          sep_not_dig, sep_not_word, dig_word, dig_not_sep, dig_not_space, sep_not_space]
  · rintro fb ds ms ys s1 s2 ⟨hd1, hd2, hd⟩ ⟨hm1, hm2, hm⟩ ⟨hy1, hy2, hy⟩ hs1 hs2 hval
    obtain ⟨p, q, rfl⟩ := shape2 (Nat.le_antisymm hy2 hy1)
    rcases shape12 hd1 hd2 with ⟨a, rfl⟩ | ⟨a, b, rfl⟩ <;>
      rcases shape12 hm1 hm2 with ⟨c, rfl⟩ | ⟨c, d, rfl⟩ <;>
      · simp only [normalize_date, String.data]
        simp [*, scanFrom, scanB, matchNumA, matchNumB, firstSome, takeDigs, noWordBefore,
          boundaryAfterWord, tryGroups, dateFromGroups, dateYMD, pyStrip, List.dropWhile,
          sep_not_dig, sep_not_word, dig_word, dig_not_sep, dig_not_space, sep_not_space,
          toNatDigits_two_lt_100]
  · rintro fb ys ms ds s1 s2 ⟨hy1, hy2, hy⟩ ⟨hm1, hm2, hm⟩ ⟨hd1, hd2, hd⟩ hs1 hs2 hval
    obtain ⟨p, q, r, t, rfl⟩ := shape4 (Nat.le_antisymm hy2 hy1)
    rcases shape12 hd1 hd2 with ⟨a, rfl⟩ | ⟨a, b, rfl⟩ <;>
      rcases shape12 hm1 hm2 with ⟨c, rfl⟩ | ⟨c, d, rfl⟩ <;>
      · simp only [normalize_date, String.data]
        simp [*, scanFrom, scanB, matchNumA, matchNumB, firstSome, takeDigs, noWordBefore,
          boundaryAfterWord, tryGroups, dateFromGroups, dateYMD, pyStrip, List.dropWhile,
          sep_not_dig, sep_not_word, dig_word, dig_not_sep, dig_not_space, sep_not_space]

/-- Witness for C1 at concrete fragments of all three forms. -/
theorem C1_normalize_date_valid_forms_witness :
    normalize_date (fuzzyParse ⟨2025, 1, 15⟩) "2025-09-12" = some "2025-09-12" ∧
    normalize_date (fuzzyParse ⟨2025, 1, 15⟩)
      (String.mk ("3".data ++ '.' :: "4".data ++ '.' :: "2021".data)) =
      some (fmtDate (toNatDigits "2021".data) (toNatDigits "4".data) (toNatDigits "3".data)) ∧
    normalize_date (fuzzyParse ⟨2025, 1, 15⟩)
      (String.mk ("7".data ++ '/' :: "8".data ++ '/' :: "21".data)) =
      some (fmtDate (2000 + toNatDigits "21".data) (toNatDigits "8".data)
        (toNatDigits "7".data)) ∧
    normalize_date (fuzzyParse ⟨2025, 1, 15⟩)
      (String.mk ("2021".data ++ '-' :: "12".data ++ '-' :: "31".data)) =
      some (fmtDate (toNatDigits "2021".data) (toNatDigits "12".data)
        (toNatDigits "31".data)) := by
  have h := C1_normalize_date_valid_forms
  refine ⟨(h.1 _).1, ?_, ?_, ?_⟩
  · exact h.2.1 _ "3".data "4".data "2021".data '.' '.'
      ⟨by decide, by decide, by decide⟩ ⟨by decide, by decide, by decide⟩
      ⟨by decide, by decide, by decide⟩ (by decide) (by decide) (by decide)
  · exact h.2.2.1 _ "7".data "8".data "21".data '/' '/'
      ⟨by decide, by decide, by decide⟩ ⟨by decide, by decide, by decide⟩
      ⟨by decide, by decide, by decide⟩ (by decide) (by decide) (by decide)
  · exact h.2.2.2 _ "2021".data "12".data "31".data '-' '-'
      ⟨by decide, by decide, by decide⟩ ⟨by decide, by decide, by decide⟩
      ⟨by decide, by decide, by decide⟩ (by decide) (by decide) (by decide)

/-! Invalid dates and the output invariant (C3, C4). -/

theorem sep_cases {c : Char} (h : sepClass c = true) : c = '.' ∨ c = '-' ∨ c = '/' := by
  simp [sepClass] at h
  rcases h with (h | h) | h
  · exact Or.inl (Char.eq_of_val_eq (UInt32.toNat.inj h))
  · exact Or.inr (Or.inl (Char.eq_of_val_eq (UInt32.toNat.inj h)))
  · exact Or.inr (Or.inr (Char.eq_of_val_eq (UInt32.toNat.inj h)))

set_option maxHeartbeats 1600000 in
/-- C3 (amended): on rejection of an invalid numeric match the function
falls through to the remaining patterns and the permissive fallback, which
may still produce a date from elsewhere in the fragment; absence is
guaranteed when the fragment is exactly an invalid numeric D-M-Y date with
a four-digit year and no alternative day-month reading, as in the spec's
example of day 30 with month 2. -/
theorem C3_invalid_dmy_gives_absence (now : PyDate) (ds ms ys : List Char) (s1 s2 : Char)
    (hds : DigStr 1 2 ds) (hms : DigStr 1 2 ms) (hys : DigStr 4 4 ys)
    (hs1 : sepClass s1 = true) (hs2 : sepClass s2 = true)
    (hv1 : validDate (toNatDigits ys) (toNatDigits ms) (toNatDigits ds) = false)
    (hv2 : validDate (toNatDigits ys) (toNatDigits ds) (toNatDigits ms) = false) :
    normalize_date (fuzzyParse now) (String.mk (ds ++ s1 :: ms ++ s2 :: ys)) = none := by
  obtain ⟨hd1, hd2, hd⟩ := hds
  obtain ⟨hm1, hm2, hm⟩ := hms
  obtain ⟨hy1, hy2, hy⟩ := hys
  obtain ⟨p, q, r, t, rfl⟩ := shape4 (Nat.le_antisymm hy2 hy1)
  rcases sep_cases hs1 with rfl | rfl | rfl <;>
    rcases sep_cases hs2 with rfl | rfl | rfl <;>
    rcases shape12 hd1 hd2 with ⟨a, rfl⟩ | ⟨a, b, rfl⟩ <;>
    rcases shape12 hm1 hm2 with ⟨c, rfl⟩ | ⟨c, d, rfl⟩ <;>
    · simp only [normalize_date, String.data]
      simp +decide [*, scanFrom, scanB, matchNumA, matchNumB, matchNumC, firstSome,
        takeDigs, noWordBefore, boundaryAfterWord, tryGroups, dateFromGroups, dateYMD,
        pyStrip, List.dropWhile, fuzzyParse, digitRuns, digitRunsAux,
        dig_word, dig_not_sep, dig_not_space, dig_ne_dot,
        sep_not_dig, sep_not_word, sep_not_space]

/-- Witness for C3 (amended) at the spec's example, day 30 with month 2. -/
theorem C3_invalid_dmy_gives_absence_witness :
    normalize_date (fuzzyParse ⟨2025, 1, 15⟩)
      (String.mk ("30".data ++ '.' :: "02".data ++ '.' :: "2024".data)) = none :=
  C3_invalid_dmy_gives_absence ⟨2025, 1, 15⟩ "30".data "02".data "2024".data '.' '.'
    ⟨by decide, by decide, by decide⟩ ⟨by decide, by decide, by decide⟩
    ⟨by decide, by decide, by decide⟩ (by decide) (by decide) (by decide) (by decide)

theorem daysInMonth_le_31 (y m : Nat) : daysInMonth y m ≤ 31 := by
  rw [daysInMonth]
  split
  · split <;> omega
  · split <;> omega

theorem validDate_bounds {y m d : Nat} (h : validDate y m d = true) :
    1 ≤ y ∧ y ≤ 9999 ∧ 1 ≤ m ∧ m ≤ 12 ∧ 1 ≤ d ∧ d ≤ 31 := by
  simp [validDate] at h
  have := daysInMonth_le_31 y m
  omega

theorem dateYMD_some {y m d : Nat} {v : String} (h : dateYMD y m d = some v) :
    v = fmtDate y m d ∧ validDate y m d = true := by
  rw [dateYMD] at h
  split at h
  · exact ⟨(Option.some.inj h).symm, by assumption⟩
  · exact absurd h (by simp)

theorem dateFromGroups_some {g : Groups3} {v : String} (h : dateFromGroups g = some v) :
    ∃ y m d, v = fmtDate y m d ∧ validDate y m d = true := by
  rw [dateFromGroups] at h
  split at h
  · exact ⟨_, _, _, dateYMD_some h⟩
  · split at h
    · exact ⟨_, _, _, dateYMD_some h⟩
    · exact ⟨_, _, _, dateYMD_some h⟩

theorem tryGroups_some {x : Option Groups3} {v : String} (h : tryGroups x = some v) :
    ∃ g, dateFromGroups g = some v := by
  cases x with
  | none => exact absurd h (by simp [tryGroups])
  | some g => exact ⟨g, h⟩

theorem fuzzyParse_some {now : PyDate} {s : String} {v : String}
    (h : fuzzyParse now s = some v) :
    ∃ y m d, v = fmtDate y m d ∧ validDate y m d = true := by
  rw [fuzzyParse.eq_def] at h
  split at h
  · split at h
    · split at h
      · next w heq =>
        exact ⟨_, _, _, dateYMD_some (heq.trans (congrArg some (Option.some.inj h)))⟩
      · exact ⟨_, _, _, dateYMD_some h⟩
    · exact absurd h (by simp)
  · split at h
    · exact ⟨_, _, _, dateYMD_some h⟩
    · exact absurd h (by simp)
  · exact absurd h (by simp)

/-- C4 (amended): every date `normalize_date` returns is a fixed-width
rendering of a real calendar triple with 1 ≤ month ≤ 12 and 1 ≤ day ≤ 31;
the year, however, is only guaranteed to lie in Python's datetime range
1..9999, not to be at least 1900 (see the counterexample). -/
theorem C4_normalize_date_output_invariant (now : PyDate) (s : String) (v : String)
    (h : normalize_date (fuzzyParse now) s = some v) :
    ∃ y m d, v = fmtDate y m d ∧ validDate y m d = true ∧
      1 ≤ y ∧ y ≤ 9999 ∧ 1 ≤ m ∧ m ≤ 12 ∧ 1 ≤ d ∧ d ≤ 31 := by
  have main : ∃ y m d, v = fmtDate y m d ∧ validDate y m d = true := by
    rw [normalize_date] at h
    split at h
    · next heq =>
      obtain ⟨g, hg⟩ := tryGroups_some heq
      exact dateFromGroups_some (hg.trans (congrArg some (Option.some.inj h)))
    · split at h
      · next heq =>
        obtain ⟨g, hg⟩ := tryGroups_some heq
        exact dateFromGroups_some (hg.trans (congrArg some (Option.some.inj h)))
      · split at h
        · next heq =>
          obtain ⟨g, hg⟩ := tryGroups_some heq
          exact dateFromGroups_some (hg.trans (congrArg some (Option.some.inj h)))
        · exact fuzzyParse_some h
  obtain ⟨y, m, d, hv, hval⟩ := main
  have hb := validDate_bounds hval
  exact ⟨y, m, d, hv, hval, hb.1, hb.2.1, hb.2.2.1, hb.2.2.2.1,
    hb.2.2.2.2.1, hb.2.2.2.2.2⟩

/-- Witness for C4 (amended) at a concrete parse. -/
theorem C4_normalize_date_output_invariant_witness :
    ∃ y m d, "2025-09-12" = fmtDate y m d ∧ validDate y m d = true ∧
      1 ≤ y ∧ y ≤ 9999 ∧ 1 ≤ m ∧ m ≤ 12 ∧ 1 ≤ d ∧ d ≤ 31 :=
  C4_normalize_date_output_invariant ⟨2025, 1, 15⟩ "12.09.2025" "2025-09-12" (by rfl)

/-! Batch orchestrator (C6). -/

/-- C6: the batch loop produces exactly one row per input document; every
status is OK, NO_PAGE or ERROR:message; and a document whose processing
raises is recorded as an ERROR row with the exception message while the
rows of the documents before and after it are produced unchanged. -/
theorem C6_batch_one_row_per_document (fb : String → Option String)
    (docs : List (String × RenderResult)) :
    (mainRows fb docs).length = docs.length ∧
    (∀ r ∈ mainRows fb docs,
      r.status = "OK" ∨ r.status = "NO_PAGE" ∨ ∃ m, r.status = "ERROR:" ++ m) ∧
    (∀ pre post f m, docs = pre ++ (f, RenderResult.exn m) :: post →
      mainRows fb docs = mainRows fb pre ++
        (⟨f, some "", some "", some "", "", "ERROR:" ++ m⟩ : Row) ::
        mainRows fb post) := by
  refine ⟨by simp [mainRows], ?_, ?_⟩
  · intro r hr
    simp only [mainRows, List.mem_map] at hr
    obtain ⟨⟨f, d⟩, _, rfl⟩ := hr
    cases d with
    | exn m => exact Or.inr (Or.inr ⟨m, rfl⟩)
    | noPage => exact Or.inr (Or.inl rfl)
    | page t => exact Or.inl rfl
  · intro pre post f m hd
    subst hd
    simp [mainRows, runOne, process_pdf]

/-- Witness for C6 at a concrete three-document batch with one raising
document. -/
theorem C6_batch_one_row_per_document_witness :
    (mainRows (fuzzyParse ⟨2025, 1, 15⟩)
      [("a.pdf", RenderResult.noPage), ("b.pdf", RenderResult.exn "boom"),
       ("c.pdf", RenderResult.page "")]).length =
      ([("a.pdf", RenderResult.noPage), ("b.pdf", RenderResult.exn "boom"),
        ("c.pdf", RenderResult.page "")] : List (String × RenderResult)).length ∧
    ((⟨"b.pdf", some "", some "", some "", "", "ERROR:boom"⟩ : Row).status = "OK" ∨
     (⟨"b.pdf", some "", some "", some "", "", "ERROR:boom"⟩ : Row).status = "NO_PAGE" ∨
     ∃ m, (⟨"b.pdf", some "", some "", some "", "", "ERROR:boom"⟩ : Row).status =
       "ERROR:" ++ m) ∧
    mainRows (fuzzyParse ⟨2025, 1, 15⟩)
      [("a.pdf", RenderResult.noPage), ("b.pdf", RenderResult.exn "boom"),
       ("c.pdf", RenderResult.page "")] =
      mainRows (fuzzyParse ⟨2025, 1, 15⟩) [("a.pdf", RenderResult.noPage)] ++
        (⟨"b.pdf", some "", some "", some "", "", "ERROR:boom"⟩ : Row) ::
        mainRows (fuzzyParse ⟨2025, 1, 15⟩) [("c.pdf", RenderResult.page "")] := by
  have h := C6_batch_one_row_per_document (fuzzyParse ⟨2025, 1, 15⟩)
    [("a.pdf", RenderResult.noPage), ("b.pdf", RenderResult.exn "boom"),
     ("c.pdf", RenderResult.page "")]
  exact ⟨h.1, h.2.1 _ (by decide),
    h.2.2 [("a.pdf", RenderResult.noPage)] [("c.pdf", RenderResult.page "")]
      "b.pdf" "boom" rfl⟩

/-! Collision resolver (C5). -/

theorem toNatDigits_append_digit (xs : List Char) (c : Char) :
    toNatDigits (xs ++ [c]) = 10 * toNatDigits xs + digVal c := by
  simp [toNatDigits, List.foldl_append]

theorem digVal_digitChar {m : Nat} (hm : m < 10) : digVal (digitChar m) = m := by
  interval_cases m <;> decide

theorem natDigsAux_val : ∀ fuel n, n ≤ fuel → toNatDigits (natDigsAux fuel n) = n := by
  intro fuel
  induction fuel with
  | zero =>
    intro n hn
    interval_cases n
    decide
  | succ fuel ih =>
    intro n hn
    by_cases h : n < 10
    · simp only [natDigsAux, if_pos h]
      have : toNatDigits [digitChar n] = digVal (digitChar n) := by
        simp [toNatDigits]
      rw [this, digVal_digitChar h]
    · simp only [natDigsAux, if_neg h]
      have hdiv : n / 10 ≤ fuel := by
        have h1 : n / 10 < n := Nat.div_lt_self (by omega) (by omega)
        omega
      rw [toNatDigits_append_digit, ih _ hdiv,
        digVal_digitChar (Nat.mod_lt _ (by omega))]
      omega

theorem natDigs_inj : Function.Injective natDigs := by
  intro a b h
  have ha := natDigsAux_val a a le_rfl
  have hb := natDigsAux_val b b le_rfl
  rw [natDigs, natDigs] at h
  rw [← ha, ← hb, h]

theorem natDigsAux_digits :
    ∀ fuel n, n ≤ fuel → ∀ c ∈ natDigsAux fuel n, isDig c = true := by
  intro fuel
  induction fuel with
  | zero =>
    intro n hn c hc
    interval_cases n
    simp only [natDigsAux, List.mem_singleton] at hc
    subst hc; decide
  | succ fuel ih =>
    intro n hn c hc
    by_cases h : n < 10
    · simp only [natDigsAux, if_pos h, List.mem_singleton] at hc
      subst hc
      interval_cases n <;> decide
    · simp only [natDigsAux, if_neg h, List.mem_append, List.mem_singleton] at hc
      rcases hc with hc | hc
      · have hdiv : n / 10 ≤ fuel := by
          have h1 : n / 10 < n := Nat.div_lt_self (by omega) (by omega)
          omega
        exact ih _ hdiv c hc
      · subst hc
        have : n % 10 < 10 := Nat.mod_lt _ (by omega)
        interval_cases hm : (n % 10) <;> decide

theorem isDig_ne_rparen {c : Char} (h : isDig c = true) : c ≠ ')' := by
  intro he
  subst he
  exact absurd h (by decide)

theorem append_eq_of_ne_marker {k : Char} :
    ∀ (xs ys t1 t2 : List Char), (∀ c ∈ xs, c ≠ k) → (∀ c ∈ ys, c ≠ k) →
      xs ++ k :: t1 = ys ++ k :: t2 → xs = ys := by
  intro xs
  induction xs with
  | nil =>
    intro ys t1 t2 _ hy h
    cases ys with
    | nil => rfl
    | cons y ys =>
      simp only [List.nil_append, List.cons_append, List.cons.injEq] at h
      exact absurd h.1.symm (hy y (by simp))
  | cons x xs ih =>
    intro ys t1 t2 hx hy h
    cases ys with
    | nil =>
      simp only [List.cons_append, List.nil_append, List.cons.injEq] at h
      exact absurd h.1 (hx x (by simp))
    | cons y ys =>
      simp only [List.cons_append, List.cons.injEq] at h
      rw [h.1, ih ys t1 t2 (fun c hc => hx c (by simp [hc])) (fun c hc => hy c (by simp [hc])) h.2]

theorem variantName_inj (p : String) : Function.Injective (variantName p) := by
  intro i j h
  have h2 : (variantName p i).data = (variantName p j).data := by rw [h]
  unfold variantName at h2
  simp only [List.append_assoc, List.cons_append] at h2
  have h3 := List.append_cancel_left h2
  simp only [List.cons.injEq, true_and] at h3
  have h4 : natDigs i ++ ')' :: (splitext p.data).2 =
      natDigs j ++ ')' :: (splitext p.data).2 := h3
  have h5 := append_eq_of_ne_marker (natDigs i) (natDigs j) _ _
    (fun c hc => isDig_ne_rparen (natDigsAux_digits i i le_rfl c hc))
    (fun c hc => isDig_ne_rparen (natDigsAux_digits j j le_rfl c hc)) h4
  exact natDigs_inj h5

theorem exists_free_variant (ex : List String) (p : String) :
    ∃ k, k < ex.length + 1 ∧ variantName p (2 + k) ∉ ex := by
  by_contra hcon
  push_neg at hcon
  have hsub : ((List.range (ex.length + 1)).map (fun k => variantName p (2 + k))) ⊆ ex := by
    intro v hv
    simp only [List.mem_map, List.mem_range] at hv
    obtain ⟨k, hk, rfl⟩ := hv
    exact hcon k hk
  have hnd : ((List.range (ex.length + 1)).map (fun k => variantName p (2 + k))).Nodup := by
    refine List.Nodup.map ?_ (List.nodup_range _)
    intro a b hab
    have := variantName_inj p hab
    omega
  have hle := (List.subperm_of_subset hnd hsub).length_le
  simp at hle

theorem resolveLoop_finds (ex : List String) (p : String) :
    ∀ fuel i, (∃ k, k < fuel ∧ variantName p (i + k) ∉ ex) →
      ∃ k, resolveLoop ex p fuel i = variantName p (i + k) ∧
        variantName p (i + k) ∉ ex ∧ ∀ j, j < k → variantName p (i + j) ∈ ex := by
  intro fuel
  induction fuel with
  | zero =>
    intro i ⟨k, hk, _⟩
    omega
  | succ fuel ih =>
    intro i ⟨k, hk, hfree⟩
    by_cases hmem : variantName p i ∈ ex
    · have hk0 : k ≠ 0 := by
        intro h0
        subst h0
        simp at hfree
        exact hfree hmem
      obtain ⟨k', rfl⟩ : ∃ k', k = k' + 1 := ⟨k - 1, by omega⟩
      have hfree' : variantName p (i + 1 + k') ∉ ex := by
        have : i + 1 + k' = i + (k' + 1) := by omega
        rw [this]; exact hfree
      obtain ⟨k0, heq, hnm, hmin⟩ := ih (i + 1) ⟨k', by omega, hfree'⟩
      refine ⟨k0 + 1, ?_, ?_, ?_⟩
      · rw [resolveLoop, if_pos hmem]
        rw [heq]
        congr 1
        omega
      · have : i + (k0 + 1) = i + 1 + k0 := by omega
        rw [this]; exact hnm
      · intro j hj
        cases j with
        | zero => simpa using hmem
        | succ j' =>
          have : i + (j' + 1) = i + 1 + j' := by omega
          rw [this]
          exact hmin j' (by omega)
    · exact ⟨0, by rw [resolveLoop, if_neg hmem]; simp, by simpa using hmem,
        fun j hj => absurd hj (by omega)⟩

/-- C5: the collision resolver returns the proposed name unchanged when it
is free; otherwise it returns the first free variant obtained by inserting
a parenthesised counter before the extension, starting at 2, and the
returned name is never one of the existing names. -/
theorem C5_resolve_first_free_variant (ex : List String) (p : String) :
    (p ∉ ex → resolve ex p = p) ∧
    (p ∈ ex →
      resolve ex p ∉ ex ∧
      ∃ i, 2 ≤ i ∧ resolve ex p = variantName p i ∧
        ∀ j, 2 ≤ j → j < i → variantName p j ∈ ex) := by
  constructor
  · intro hnm
    rw [resolve, if_neg hnm]
  · intro hmem
    rw [resolve, if_pos hmem]
    obtain ⟨k, hk, hfree⟩ := exists_free_variant ex p
    obtain ⟨k0, heq, hnm, hmin⟩ := resolveLoop_finds ex p (ex.length + 1) 2 ⟨k, hk, hfree⟩
    refine ⟨by rw [heq]; exact hnm, 2 + k0, by omega, heq, ?_⟩
    intro j h2j hji
    have : j = 2 + (j - 2) := by omega
    rw [this]
    exact hmin (j - 2) (by omega)

/-- Witness for C5: with "a.pdf" and its variant "a (2).pdf" both taken,
resolving "a.pdf" gives the next free variant "a (3).pdf", which is not a
member of the existing names. -/
theorem C5_resolve_first_free_variant_witness :
    resolve ["a.pdf", "a (2).pdf"] "a.pdf" ∉ (["a.pdf", "a (2).pdf"] : List String) ∧
    ∃ i, 2 ≤ i ∧ resolve ["a.pdf", "a (2).pdf"] "a.pdf" = variantName "a.pdf" i ∧
      ∀ j, 2 ≤ j → j < i → variantName "a.pdf" j ∈ (["a.pdf", "a (2).pdf"] : List String) :=
  (C5_resolve_first_free_variant ["a.pdf", "a (2).pdf"] "a.pdf").2 (by decide)

/-- C10 (counterexample): a maximal run of five ASCII alphanumeric
characters does not guarantee a non-absent invoice number: in "_abcde_" the
flanking underscores are word characters, the `\b` of the loose fallback
fails on both sides of the run, and the extractor returns absence. -/
theorem C10_counterexample :
    extract_invoice_no "_abcde_" = none ∧
    ("_abcde_").data = ['_'] ++ "abcde".data ++ ['_'] ∧
    5 ≤ ("abcde").data.length ∧
    (∀ c ∈ ("abcde").data, isAsciiAlnum c = true) := by
  refine ⟨rfl, rfl, by decide, by decide⟩

/-! The loose fallback always fires on a word-bounded alphanumeric run
(C10 amended). -/

theorem alnum_word {c : Char} (h : isAsciiAlnum c = true) : isWordChar c = true := by
  simp [isWordChar, h]

theorem takeWhile_append_all {p : Char → Bool} :
    ∀ (l r : List Char), (∀ c ∈ l, p c = true) →
      (∀ c, r.head? = some c → p c = false) →
      (l ++ r).takeWhile p = l := by
  intro l
  induction l with
  | nil =>
    intro r _ hr
    cases r with
    | nil => rfl
    | cons c rest => simp [List.takeWhile_cons, hr c rfl]
  | cons a l2 ih =>
    intro r hl hr
    simp only [List.cons_append, List.takeWhile_cons, hl a (by simp), if_true]
    rw [ih r (fun c hc => hl c (by simp [hc])) hr]

theorem looseAlt3_succeeds {run post : List Char} (hlen : 5 ≤ run.length)
    (halnum : ∀ c ∈ run, isAsciiAlnum c = true)
    (hpost : ∀ c, post.head? = some c → isWordChar c = false) :
    looseAlt3 (run ++ post) = some post := by
  have htw : (run ++ post).takeWhile isAsciiAlnum = run := by
    refine takeWhile_append_all run post halnum ?_
    intro c hc
    have hw := hpost c hc
    cases ha : isAsciiAlnum c with
    | false => rfl
    | true => rw [alnum_word ha] at hw; exact absurd hw (by simp)
  have hbnd : boundaryAfterWord post = true := by
    cases post with
    | nil => rfl
    | cons c rest => simp [boundaryAfterWord, hpost c rfl]
  simp only [looseAlt3, htw]
  rw [if_pos hlen, List.drop_left, if_pos hbnd]

theorem matchLoose_isSome_of_alt3 {cs post : List Char} (h3 : looseAlt3 cs = some post) :
    ∃ w, matchLoose cs = some w := by
  cases h1 : looseAlt1 cs with
  | some r => exact ⟨cs.take (cs.length - r.length), by simp [matchLoose, firstSome, h1]⟩
  | none =>
    cases h2 : looseAlt2 cs with
    | some r =>
      exact ⟨cs.take (cs.length - r.length), by simp [matchLoose, firstSome, h1, h2]⟩
    | none =>
      exact ⟨cs.take (cs.length - post.length), by simp [matchLoose, firstSome, h1, h2, h3]⟩

theorem scanB_none_here {β : Type} {m : List Char → Option β} {prev : Option Char}
    {cs : List Char} (h : scanB m prev cs = none) (hw : noWordBefore prev = true) :
    m cs = none := by
  cases cs with
  | nil =>
    have h2 := scanB_nil_none h
    rwa [if_pos hw] at h2
  | cons c rest => exact scanB_none_head h hw

theorem scanB_none_all {β : Type} (m : List Char → Option β) :
    ∀ (pre : List Char) (prev : Option Char) (suf : List Char),
      scanB m prev (pre ++ suf) = none →
      (match pre.getLast? with
       | some fl => isWordChar fl = false
       | none => noWordBefore prev = true) →
      m suf = none := by
  intro pre
  induction pre with
  | nil =>
    intro prev suf h hfl
    simp only [List.getLast?_nil] at hfl
    exact scanB_none_here (by simpa using h) hfl
  | cons c pre2 ih =>
    intro prev suf h hfl
    have h2 : scanB m (some c) (pre2 ++ suf) = none :=
      scanB_none_inv h c (pre2 ++ suf) (by simp)
    refine ih (some c) suf h2 ?_
    cases hp : pre2.getLast? with
    | some fl =>
      have hcc : (c :: pre2).getLast? = some fl := by
        cases pre2 with
        | nil => simp at hp
        | cons x xs => rw [List.getLast?_cons_cons, hp]
      rw [hcc] at hfl
      simp only
      exact hfl
    | none =>
      have hpre2 : pre2 = [] := by
        cases pre2 with
        | nil => rfl
        | cons x xs => simp [List.getLast?_cons_cons] at hp
      subst hpre2
      have hcc : (c :: ([] : List Char)).getLast? = some c := rfl
      rw [hcc] at hfl
      simp only [noWordBefore, hfl]
      rfl

theorem invLoose_isSome {cs : List Char} (h : scanB matchLoose none cs ≠ none) :
    ∃ v, invLoose cs = some v := by
  cases hs : scanB matchLoose none cs with
  | some cap => exact ⟨String.mk (cap.map upChar), by simp [invLoose, hs]⟩
  | none => exact absurd hs h

theorem invStep4_isSome {cs : List Char} (h : ∃ v, invLoose cs = some v) :
    ∃ v, invStep4 cs = some v := by
  obtain ⟨v, hv⟩ := h
  cases h4 : scanB matchInv4 none cs with
  | some raw =>
    by_cases hl : 3 ≤ (cleanRaw raw).length
    · exact ⟨String.mk (cleanRaw raw), by simp [invStep4, h4, hl]⟩
    · exact ⟨v, by simp [invStep4, h4, hl, hv]⟩
  | none => exact ⟨v, by simp [invStep4, h4, hv]⟩

theorem invStep3_isSome {cs : List Char} (h : ∃ v, invStep4 cs = some v) :
    ∃ v, invStep3 cs = some v := by
  obtain ⟨v, hv⟩ := h
  cases h3 : scanPlain matchInv3 cs with
  | some raw =>
    by_cases hl : 3 ≤ (cleanRaw raw).length
    · exact ⟨String.mk (cleanRaw raw), by simp [invStep3, h3, hl]⟩
    · exact ⟨v, by simp [invStep3, h3, hl, hv]⟩
  | none => exact ⟨v, by simp [invStep3, h3, hv]⟩

theorem invStep2_isSome {cs : List Char} (h : ∃ v, invStep3 cs = some v) :
    ∃ v, invStep2 cs = some v := by
  obtain ⟨v, hv⟩ := h
  cases h2 : scanPlain matchInv2 cs with
  | some raw =>
    by_cases hl : 3 ≤ (cleanRaw raw).length
    · exact ⟨String.mk (cleanRaw raw), by simp [invStep2, h2, hl]⟩
    · exact ⟨v, by simp [invStep2, h2, hl, hv]⟩
  | none => exact ⟨v, by simp [invStep2, h2, hv]⟩

/-- C10 (amended): on every text containing a maximal run of at least five
ASCII alphanumeric characters whose flanking characters (when present) are
not word characters — an adjacent underscore or non-ASCII word character
defeats the `\b` of the loose fallback, see the counterexample — the
extractor returns some value, never absence. -/
theorem C10_invoice_no_some_of_clean_run (t : String) (h : cleanRun t.data) :
    ∃ v, extract_invoice_no t = some v := by
  obtain ⟨pre, run, post, hcs, hlen, halnum, hflankL, hflankR⟩ := h
  have halt3 : looseAlt3 (run ++ post) = some post :=
    looseAlt3_succeeds hlen halnum hflankR
  have hml : ∃ w, matchLoose (run ++ post) = some w := matchLoose_isSome_of_alt3 halt3
  have hscan : scanB matchLoose none t.data ≠ none := by
    intro hnone
    have hnone2 : scanB matchLoose none (pre ++ (run ++ post)) = none := by
      rw [← List.append_assoc, ← hcs]
      exact hnone
    have hmnone : matchLoose (run ++ post) = none := by
      refine scanB_none_all matchLoose pre none (run ++ post) hnone2 ?_
      cases hp : pre.getLast? with
      | some fl =>
        simp only
        exact hflankL fl hp
      | none => rfl
    obtain ⟨w, hw⟩ := hml
    rw [hmnone] at hw
    cases hw
  have hchain : ∃ v, invStep2 t.data = some v :=
    invStep2_isSome (invStep3_isSome (invStep4_isSome (invLoose_isSome hscan)))
  obtain ⟨v, hv⟩ := hchain
  cases h1 : scanPlain matchInv1 t.data with
  | some raw =>
    by_cases hl : 3 ≤ (cleanRaw raw).length
    · exact ⟨String.mk (cleanRaw raw), by simp [extract_invoice_no, h1, hl]⟩
    · exact ⟨v, by simp [extract_invoice_no, h1, hl, hv]⟩
  | none => exact ⟨v, by simp [extract_invoice_no, h1, hv]⟩

/-- Witness for C10 (amended): a five-letter run flanked by spaces. -/
theorem C10_invoice_no_some_of_clean_run_witness :
    ∃ v, extract_invoice_no " qwzxy " = some v := by
  refine C10_invoice_no_some_of_clean_run " qwzxy " ⟨[' '], "qwzxy".data, [' '], ?_, ?_, ?_, ?_, ?_⟩
  · rfl
  · decide
  · decide
  · intro fl hfl
    have : fl = ' ' := by
      have h2 : (([' '] : List Char)).getLast? = some ' ' := rfl
      rw [h2] at hfl
      exact (Option.some.inj hfl).symm
    subst this
    decide
  · intro c hc
    have : c = ' ' := by
      have h2 : (([' '] : List Char)).head? = some ' ' := rfl
      rw [h2] at hc
      exact (Option.some.inj hc).symm
    subst this
    decide

end InvoiceRenamer
